import Mathlib

/-!
Verification of the TP2 scraping/processing service (shallow embedding).

Bytes are modelled as natural numbers below 256, byte streams as lists of
naturals, wall-clock instants as rationals, and JSON documents as an
inductive type.  Each definition mirrors one Python function of the
repository; the theorems settle the specification claims against them.
-/

namespace TP2

/-! ## Wire framing (common/protocol.py, server_scraping.py RPC client)

A TCP stream is the list of bytes that will arrive before the peer closes
the connection.  recv_all returns the first n bytes or fails like the
Python ConnectionError when the stream is exhausted first. -/

inductive ProtoErr where
  | connClosed
  | invalidSize
  | unicodeError
  | jsonError
  deriving DecidableEq, Repr

/-- struct.pack with format !I : 4-byte big-endian encoding of n (n < 2^32). -/
def packBE4 (n : ℕ) : List ℕ :=
  [n / 16777216 % 256, n / 65536 % 256, n / 256 % 256, n % 256]

/-- struct.unpack with format !I on a 4-byte header. -/
def unpackBE4 (b : List ℕ) : ℕ :=
  match b with
  | [b0, b1, b2, b3] => ((b0 * 256 + b1) * 256 + b2) * 256 + b3
  | _ => 0

/-- recv_all of common/protocol.py: loop reading until nbytes arrived;
raises ConnectionError when the stream closes first. -/
def recv_all (nbytes : ℕ) (s : List ℕ) : Except ProtoErr (List ℕ × List ℕ) :=
  if nbytes ≤ s.length then Except.ok (s.take nbytes, s.drop nbytes)
  else Except.error ProtoErr.connClosed

/-- The framing part shared by recv_message (common/protocol.py) and
call_processing_server_async (server_scraping.py): read a 4-byte
big-endian length, reject it when length ≤ 0 or length > maxLen
(raising ValueError), then read exactly length body bytes.  Returns the
body and the unread remainder of the stream. -/
def recvFrame (maxLen : ℕ) (s : List ℕ) : Except ProtoErr (List ℕ × List ℕ) := do
  let (headerBytes, s1) ← recv_all 4 s
  let length := unpackBE4 headerBytes
  if length ≤ 0 ∨ maxLen < length then Except.error ProtoErr.invalidSize
  else do
    let (body, s2) ← recv_all length s1
    Except.ok (body, s2)

/-- recv_message of common/protocol.py uses the bound 1_000_000_000. -/
def recv_message_frame (s : List ℕ) : Except ProtoErr (List ℕ × List ℕ) :=
  recvFrame 1000000000 s

/-- call_processing_server_async of server_scraping.py uses the bound
100_000_000 when reading the framed reply. -/
def client_recv_frame (s : List ℕ) : Except ProtoErr (List ℕ × List ℕ) :=
  recvFrame 100000000 s

/-! ## JSON documents

Python-side payloads are JSON values.  Floating-point numbers are outside
the model (no claim depends on them); numbers are integers. -/

inductive Json where
  | null
  | bool (b : Bool)
  | num (n : ℤ)
  | str (s : String)
  | arr (elems : List Json)
  | obj (fields : List (String × Json))

/-! ## Per-domain rate limiter (server_scraping.py, DomainRateLimiter)

The limiter state for one domain is its deque of admission timestamps
(floats in the source, rationals here).  allow purges the front of the
deque while the front entry is older than the 60-second period, then
either rejects or admits by appending the current instant. -/

/-- DomainRateLimiter.allow of server_scraping.py restricted to one
domain's bucket: returns the verdict and the updated bucket. -/
def allow (max : ℤ) (now : ℚ) (bucket : List ℚ) : Bool × List ℚ :=
  if max ≤ 0 then (true, bucket)
  else
    let purged := bucket.dropWhile (fun t => decide (60 < now - t))
    if max ≤ (purged.length : ℤ) then (false, purged)
    else (true, purged ++ [now])

/-- Claim C2's wording of the same operation, for comparison with `allow`:
it purges every timestamp t with t ≤ now − 60 (the code keeps the
boundary timestamp t = now − 60). -/
def allowClaimed (max : ℤ) (now : ℚ) (bucket : List ℚ) : Bool × List ℚ :=
  if max ≤ 0 then (true, bucket)
  else
    let purged := bucket.filter (fun t => decide (now - 60 < t))
    if max ≤ (purged.length : ℤ) then (false, purged)
    else (true, purged ++ [now])

/-! ## Result cache (server_scraping.py, ResultCache)

The dict of entries is a map from URL to (insertion instant, data). -/

/-- ResultCache.set: overwrite the entry for url with a fresh timestamp. -/
def cache_set {α : Type} (now : ℚ) (entries : String → Option (ℚ × α))
    (url : String) (data : α) : String → Option (ℚ × α) :=
  fun u => if u = url then some (now, data) else entries u

/-- ResultCache.get: return the stored data unless the entry is older than
the TTL, in which case the stale entry is deleted and the read misses.
Returns the read result together with the updated entry map. -/
def cache_get {α : Type} (ttl now : ℚ) (entries : String → Option (ℚ × α))
    (url : String) : Option α × (String → Option (ℚ × α)) :=
  match entries url with
  | none => (none, entries)
  | some (ts, data) =>
      if ttl < now - ts then (none, fun u => if u = url then none else entries u)
      else (some data, entries)

/-! ## Task manager (server_scraping.py, TaskManager / TaskRecord)

Only the fields the claims speak about are modelled; timestamps and the
uuid are irrelevant to the record invariant. -/

structure TaskRecord (α : Type) where
  url : String
  status : String
  result : Option α
  error : Option String
  deriving Repr, DecidableEq

/-- TaskManager.create_task: a fresh record in status pending. -/
def create_task {α : Type} (url : String) : TaskRecord α :=
  { url := url, status := ("pending"), result := none, error := none }

/-- TaskManager.set_status: store the status and the (possibly absent)
error; the result field is untouched. -/
def set_status {α : Type} (r : TaskRecord α) (status : String)
    (error : Option String) : TaskRecord α :=
  { r with status := status, error := error }

/-- TaskManager.set_result: attach the result, set the status (the Python
default is completed) and clear the error. -/
def set_result {α : Type} (r : TaskRecord α) (result : α) (status : String) :
    TaskRecord α :=
  { r with result := some result, status := status, error := none }

/-- One TaskManager mutation on an existing record. -/
inductive TMOp (α : Type) where
  | opStatus (status : String) (error : Option String)
  | opResult (result : α) (status : String)

/-- Apply one mutation. -/
def applyOp {α : Type} (r : TaskRecord α) : TMOp α → TaskRecord α
  | TMOp.opStatus s e => set_status r s e
  | TMOp.opResult res s => set_result r res s

/-- The record reached from create_task by a sequence of mutations. -/
def runOps {α : Type} (url : String) (ops : List (TMOp α)) : TaskRecord α :=
  ops.foldl applyOp (create_task url)

/-- The record invariant claim C5 states. -/
def RecordInv {α : Type} (r : TaskRecord α) : Prop :=
  (r.status = "completed" → r.result ≠ none ∧ r.error = none) ∧
  (r.status = "failed" → r.result = none ∧ r.error ≠ none)

instance {α : Type} [DecidableEq α] (r : TaskRecord α) : Decidable (RecordInv r) := by
  unfold RecordInv
  infer_instance

/-- The status updates process_scrape_task actually issues: scraping and
processing with no error, or failed with a non-null error message. -/
def ValidStatusOp {α : Type} : TMOp α → Prop
  | TMOp.opStatus s e =>
      ((s = "scraping" ∨ s = "processing") ∧ e = none) ∨ (s = "failed" ∧ e ≠ none)
  | TMOp.opResult _ _ => False

/-- The result updates the server actually issues: always status completed. -/
def ValidResultOp {α : Type} : TMOp α → Prop
  | TMOp.opStatus _ _ => False
  | TMOp.opResult _ s => s = "completed"

instance {α : Type} : (op : TMOp α) → Decidable (ValidStatusOp op)
  | TMOp.opStatus s e =>
      (inferInstance :
        Decidable (((s = "scraping" ∨ s = "processing") ∧ e = none) ∨
          (s = "failed" ∧ e ≠ none)))
  | TMOp.opResult _ _ => (inferInstance : Decidable False)

instance {α : Type} : (op : TMOp α) → Decidable (ValidResultOp op)
  | TMOp.opStatus _ _ => (inferInstance : Decidable False)
  | TMOp.opResult _ s => (inferInstance : Decidable (s = "completed"))

/-! ## Scrape pipeline (server_scraping.py, process_scrape_task)

The two awaited effects whose outcome drives the control flow are the
HTTP fetch and the processing RPC; each is modelled by its outcome.
Scraping data is opaque to the pipeline (built by the external parsers),
so it is a type parameter. -/

/-- Outcome of AsyncHttpClient.fetch_text plus parsing: the fetch raised
asyncio.TimeoutError, raised some other exception (with its message), or
produced HTML from which the parsers built the scraping data. -/
inductive FetchOutcome (α : Type) where
  | timeout
  | failure (msg : String)
  | fetched (scraping_data : α)

/-- A decoded JSON object sent back over the RPC, seen through the three
keys process_scrape_task reads: status, processing_data, error.  A `none`
field models an absent key. -/
structure ProcResponse where
  status : Option String
  processing_data : Option Json
  error : Option String

/-- Outcome of call_processing_server_async: an exception (connection
refused, timeout, framing error, ...) with its rendered message, or the
decoded reply. -/
inductive RpcOutcome where
  | exc (msg : String)
  | reply (resp : ProcResponse)

/-- The success reply built by ProcessingTCPHandler.handle of
server_processing.py. -/
def handler_success (data : Json) : ProcResponse :=
  { status := some ("success"), processing_data := some data, error := none }

/-- The error reply built by ProcessingTCPHandler.handle of
server_processing.py (missing url, or a handler exception). -/
def handler_error (msg : String) : ProcResponse :=
  { status := some ("error"), processing_data := none, error := some msg }

/-- The RPC outcomes that can actually reach process_scrape_task: either
the call raised, or the reply is one of the two shapes
ProcessingTCPHandler.handle of server_processing.py sends. -/
def WfRpc (rpc : RpcOutcome) : Prop :=
  (∃ msg, rpc = RpcOutcome.exc msg) ∨
  (∃ d, rpc = RpcOutcome.reply (handler_success d)) ∨
  (∃ msg, rpc = RpcOutcome.reply (handler_error msg))

/-- The result document process_scrape_task merges, through the keys the
claims mention.  processing_error models the optionally-present key. -/
structure ResultDoc (α : Type) where
  url : String
  timestamp : String
  scraping_data : α
  processing_data : Json
  status : String
  processing_error : Option String

/-- The observable outcome of one run of process_scrape_task: the final
state of the task record and what was written to the cache (none when the
cache was not touched). -/
structure PipelineOut (α : Type) where
  status : String
  result : Option (ResultDoc α)
  error : Option String
  cacheWrite : Option (ResultDoc α)

/-- process_scrape_task of server_scraping.py as a function of the fetch
and RPC outcomes.  An RPC exception is converted to an error response
with empty processing_data; a fetch timeout fails the task with the
fixed message Timeout; any other fetch error fails it with the rendered
exception message. -/
def process_scrape_task {α : Type} (url timestamp : String)
    (fetch : FetchOutcome α) (rpc : RpcOutcome) : PipelineOut α :=
  match fetch with
  | FetchOutcome.timeout =>
      { status := ("failed"), result := none, error := some ("Timeout"),
        cacheWrite := none }
  | FetchOutcome.failure msg =>
      { status := ("failed"), result := none, error := some msg,
        cacheWrite := none }
  | FetchOutcome.fetched sdata =>
      let processing_response : ProcResponse :=
        match rpc with
        | RpcOutcome.exc msg =>
            { status := some ("error"), processing_data := some (Json.obj []),
              error := some msg }
        | RpcOutcome.reply resp => resp
      let result : ResultDoc α :=
        { url := url, timestamp := timestamp, scraping_data := sdata,
          processing_data := processing_response.processing_data.getD (Json.obj []),
          status := if processing_response.status = some ("success")
                    then ("success") else ("partial"),
          processing_error := processing_response.error }
      { status := ("completed"), result := some result, error := none,
        cacheWrite := some result }

/-! ## SEO evaluation (processor/advanced.py, evaluate_seo)

The HTML-derived features (title, description, h1 count, presence of a
canonical link, robots meta, any og: meta) are inputs; BeautifulSoup
extraction is external per the spec.  Lengths count characters exactly as
Python's len on str. -/

structure SeoOut where
  title_length : ℕ
  meta_description_length : ℕ
  h1_count : ℕ
  has_canonical : Bool
  has_robots : Bool
  has_open_graph : Bool
  score : ℕ
  deriving Repr, DecidableEq

/-- evaluate_seo of processor/advanced.py: accumulate the weighted checks
and cap the score at 100. -/
def evaluate_seo (title description : String) (h1_count : ℕ)
    (canonical robots open_graph : Bool) : SeoOut :=
  let score := 0
  let score := score + (if title ≠ "" then 15 else 0)
  let score := score + (if 10 ≤ title.length ∧ title.length ≤ 70 then 20 else 0)
  let score := score + (if description ≠ "" then 15 else 0)
  let score := score + (if 50 ≤ description.length ∧ description.length ≤ 160 then 15 else 0)
  let score := score + (if h1_count = 1 then 10 else 0)
  let score := score + (if canonical then 10 else 0)
  let score := score + (if robots then 5 else 0)
  let score := score + (if open_graph then 10 else 0)
  { title_length := title.length,
    meta_description_length := description.length,
    h1_count := h1_count,
    has_canonical := canonical,
    has_robots := robots,
    has_open_graph := open_graph,
    score := min score 100 }

/-! ## HTTP submission handler (server_scraping.py, handle_scrape)

State touched by one /scrape request: the per-domain buckets, the cache
entries, and the list of task records (create_task appends). -/

structure ScrapeState (α : Type) where
  buckets : String → List ℚ
  entries : String → Option (ℚ × α)
  tasks : List (TaskRecord α)

/-- The HTTP response of handle_scrape, by status code and shape. -/
inductive ScrapeResponse where
  | invalidUrl                -- 400, URL inválida
  | rateLimited               -- 429
  | cachedCompleted           -- 200, cached:true
  | accepted                  -- 202, pipeline scheduled
  deriving Repr, DecidableEq

/-- handle_scrape of server_scraping.py for a request whose URL parsed to
the given optional hostname: consult the rate limiter, create the task,
then consult the cache; on a hit complete the task from the cache, else
schedule the pipeline (the background run itself is process_scrape_task). -/
def handle_scrape {α : Type} (max : ℤ) (ttl now : ℚ)
    (host : Option String) (url : String) (st : ScrapeState α) :
    ScrapeResponse × ScrapeState α :=
  match host with
  | none => (ScrapeResponse.invalidUrl, st)
  | some domain =>
      let verdict := allow max now (st.buckets domain)
      let st1 : ScrapeState α :=
        { st with buckets := fun d => if d = domain then verdict.2 else st.buckets d }
      if ¬verdict.1 then (ScrapeResponse.rateLimited, st1)
      else
        let record : TaskRecord α := create_task url
        let read := cache_get ttl now st1.entries url
        let st2 : ScrapeState α := { st1 with entries := read.2 }
        match read.1 with
        | some data =>
            (ScrapeResponse.cachedCompleted,
             { st2 with tasks := st2.tasks ++ [set_result record data ("completed")] })
        | none =>
            (ScrapeResponse.accepted, { st2 with tasks := st2.tasks ++ [record] })

/-! ## Processing dispatcher (server_processing.py, process_tasks)

Each analyzer call is modelled by its outcome (a value or an exception
message); the dispatcher runs an analyzer only when its flag is truthy
and the guard input is non-empty, and replaces an exception by the
neutral default of the field. -/

structure TaskFlags where
  screenshot : Bool
  performance : Bool
  thumbnails : Bool
  tech_stack : Bool
  seo : Bool
  structured_data : Bool
  accessibility : Bool

structure ProcOut where
  screenshot : Json
  performance : Json
  thumbnails : Json
  tech_stack : Json
  seo : Json
  structured_data : Json
  accessibility : Json

/-- process_tasks of server_processing.py.  Each analyzer outcome is a
parameter: Except.error is the analyzer raising, Except.ok its value. -/
def process_tasks (tasks : TaskFlags) (image_urls : List String) (html : String)
    (screenshotR performanceR thumbnailsR techR seoR structR accR :
      Except String Json) : ProcOut :=
  { screenshot :=
      if tasks.screenshot then
        match screenshotR with
        | Except.ok v => v
        | Except.error _ => Json.null
      else Json.null,
    performance :=
      if tasks.performance then
        match performanceR with
        | Except.ok v => v
        | Except.error _ => Json.null
      else Json.null,
    thumbnails :=
      if tasks.thumbnails ∧ image_urls ≠ [] then
        match thumbnailsR with
        | Except.ok v => v
        | Except.error _ => Json.arr []
      else Json.arr [],
    tech_stack :=
      if tasks.tech_stack ∧ html ≠ "" then
        match techR with
        | Except.ok v => v
        | Except.error _ => Json.arr []
      else Json.arr [],
    seo :=
      if tasks.seo ∧ html ≠ "" then
        match seoR with
        | Except.ok v => v
        | Except.error _ => Json.obj []
      else Json.obj [],
    structured_data :=
      if tasks.structured_data ∧ html ≠ "" then
        match structR with
        | Except.ok v => v
        | Except.error _ => Json.arr []
      else Json.arr [],
    accessibility :=
      if tasks.accessibility ∧ html ≠ "" then
        match accR with
        | Except.ok v => v
        | Except.error _ => Json.obj []
      else Json.obj [] }

/-! ## JSON text codec

Models json.dumps(payload, separators=(",", ":"), ensure_ascii=False)
and json.loads from the Python standard library, which the repository
calls on both RPC endpoints.  Numbers are integers (floats are outside
the model) and a lone \uXXXX escape denotes the code point directly
(surrogate pairing is not modelled; dumps with ensure_ascii=False never
emits it). -/

/-- Opening brace character. -/
def lbrace : Char := Char.ofNat 123

/-- Closing brace character. -/
def rbrace : Char := Char.ofNat 125

/-- Lower-case hexadecimal digit for n < 16, as json.dumps emits. -/
def hexDig (n : ℕ) : Char :=
  if n < 10 then Char.ofNat (48 + n) else Char.ofNat (87 + n)

/-- How json.dumps with ensure_ascii=False renders one character inside a
string literal: escape the quote, the backslash and control characters
(with the short forms for backspace, tab, newline, form feed, carriage
return), everything else verbatim. -/
def escapeChar (c : Char) : List Char :=
  if c = '"' then ['\\', '"']
  else if c = '\\' then ['\\', '\\']
  else if c.toNat < 32 then
    if c.toNat = 8 then ['\\', 'b']
    else if c.toNat = 9 then ['\\', 't']
    else if c.toNat = 10 then ['\\', 'n']
    else if c.toNat = 12 then ['\\', 'f']
    else if c.toNat = 13 then ['\\', 'r']
    else ['\\', 'u', '0', '0', hexDig (c.toNat / 16), hexDig (c.toNat % 16)]
  else [c]

/-- Decimal digits of n, least significant first, driven by fuel. -/
def natDigitsRevFuel : ℕ → ℕ → List ℕ
  | 0, _ => []
  | fuel + 1, n => if n = 0 then [] else n % 10 :: natDigitsRevFuel fuel (n / 10)

/-- Decimal rendering of a natural number, as Python repr of int. -/
def natChars (n : ℕ) : List Char :=
  if n = 0 then ['0']
  else ((natDigitsRevFuel n n).reverse).map (fun d => Char.ofNat (48 + d))

/-- Decimal rendering of an integer. -/
def intChars (n : ℤ) : List Char :=
  if n < 0 then '-' :: natChars n.natAbs else natChars n.natAbs

/-- A rendered JSON string literal: quote, escaped body, quote. -/
def dumpsStr (s : String) : List Char :=
  '"' :: ((s.data.map escapeChar).flatten ++ ['"'])

mutual
/-- json.dumps with separators=(",", ":") and ensure_ascii=False, as a
character list. -/
def dumps : Json → List Char
  | Json.null => ['n', 'u', 'l', 'l']
  | Json.bool true => ['t', 'r', 'u', 'e']
  | Json.bool false => ['f', 'a', 'l', 's', 'e']
  | Json.num n => intChars n
  | Json.str s => dumpsStr s
  | Json.arr [] => ['[', ']']
  | Json.arr (x :: xs) => '[' :: (dumps x ++ dumpsArrTail xs)
  | Json.obj [] => [lbrace, rbrace]
  | Json.obj (m :: ms) =>
      lbrace :: (dumpsStr m.1 ++ ':' :: dumps m.2 ++ dumpsObjTail ms)

/-- The rendering of the remaining array elements and the closing bracket. -/
def dumpsArrTail : List Json → List Char
  | [] => [']']
  | y :: ys => ',' :: (dumps y ++ dumpsArrTail ys)

/-- The rendering of the remaining object members and the closing brace. -/
def dumpsObjTail : List (String × Json) → List Char
  | [] => [rbrace]
  | m :: ms => ',' :: (dumpsStr m.1 ++ ':' :: dumps m.2 ++ dumpsObjTail ms)
end

mutual
/-- Fuel sufficient for parseVal to reparse a value (see the round-trip
lemmas). -/
def jsize : Json → ℕ
  | Json.null => 1
  | Json.bool _ => 1
  | Json.num _ => 1
  | Json.str _ => 1
  | Json.arr [] => 1
  | Json.arr (x :: xs) => 1 + jsize x + jsizeA xs
  | Json.obj [] => 1
  | Json.obj (m :: ms) => 1 + jsizeM m + jsizeO ms

/-- Fuel for parseArrTail. -/
def jsizeA : List Json → ℕ
  | [] => 1
  | y :: ys => 1 + jsize y + jsizeA ys

/-- Fuel for parseMember. -/
def jsizeM : String × Json → ℕ
  | m => 1 + jsize m.2

/-- Fuel for parseObjTail. -/
def jsizeO : List (String × Json) → ℕ
  | [] => 1
  | m :: ms => 1 + jsizeM m + jsizeO ms
end

/-- JSON insignificant whitespace. -/
def isJsonWs (c : Char) : Bool :=
  c = ' ' || c = '\t' || c = '\n' || c = '\r'

/-- Skip insignificant whitespace. -/
def skipWs (s : List Char) : List Char := s.dropWhile isJsonWs

/-- Value of a hexadecimal digit. -/
def hexVal (c : Char) : Option ℕ :=
  if 48 ≤ c.toNat ∧ c.toNat ≤ 57 then some (c.toNat - 48)
  else if 97 ≤ c.toNat ∧ c.toNat ≤ 102 then some (c.toNat - 87)
  else if 65 ≤ c.toNat ∧ c.toNat ≤ 70 then some (c.toNat - 55)
  else none

/-- The character denoted by a single-character escape. -/
def escMap (e : Char) : Option Char :=
  if e = '"' then some ('"')
  else if e = '\\' then some ('\\')
  else if e = '/' then some ('/')
  else if e = 'b' then some (Char.ofNat 8)
  else if e = 'f' then some (Char.ofNat 12)
  else if e = 'n' then some (Char.ofNat 10)
  else if e = 'r' then some (Char.ofNat 13)
  else if e = 't' then some (Char.ofNat 9)
  else none

mutual
/-- Parse the body of a string literal after the opening quote, up to and
including the closing quote; raw control characters are rejected as in
strict json.loads. -/
def parseStrChars : List Char → Option (List Char × List Char)
  | [] => none
  | c :: rest =>
    if c = '"' then some ([], rest)
    else if c = '\\' then parseStrEsc rest
    else if c.toNat < 32 then none
    else (parseStrChars rest).map (fun p => (c :: p.1, p.2))

/-- Parse what follows a backslash inside a string literal. -/
def parseStrEsc : List Char → Option (List Char × List Char)
  | [] => none
  | e :: rest2 =>
    match escMap e with
    | some c2 => (parseStrChars rest2).map (fun p => (c2 :: p.1, p.2))
    | none =>
      if e = 'u' then
        match rest2 with
        | h1 :: h2 :: h3 :: h4 :: rest3 =>
          match hexVal h1, hexVal h2, hexVal h3, hexVal h4 with
          | some a, some b, some c3, some d =>
              (parseStrChars rest3).map
                (fun p => (Char.ofNat (((a * 16 + b) * 16 + c3) * 16 + d) :: p.1, p.2))
          | _, _, _, _ => none
        | _ => none
      else none
end

/-- Numeric value of a run of decimal digit characters. -/
def digitsVal (ds : List Char) : ℕ :=
  ds.foldl (fun a c => 10 * a + (c.toNat - 48)) 0

/-- Parse an integer literal.  A fractional part or exponent would be a
float, which is outside the model, so it is rejected here. -/
def parseNum (s : List Char) : Option (Json × List Char) :=
  let signed := match s with
    | c :: r => if c = '-' then (true, r) else (false, s)
    | [] => (false, s)
  let ds := signed.2.takeWhile Char.isDigit
  let rest := signed.2.dropWhile Char.isDigit
  if ds = [] then none
  else if 1 < ds.length ∧ ds.head? = some ('0') then none
  else
    let ok : Json × List Char :=
      (Json.num (if signed.1 then -(digitsVal ds : ℤ) else (digitsVal ds : ℤ)), rest)
    match rest with
    | c :: _ => if c = '.' ∨ c = 'e' ∨ c = 'E' then none else some ok
    | [] => some ok

mutual
/-- Recursive-descent JSON value parser (json.loads), fuel-driven. -/
def parseVal : ℕ → List Char → Option (Json × List Char)
  | 0, _ => none
  | fuel + 1, s =>
    match skipWs s with
    | [] => none
    | c :: cs =>
      if c = 'n' then
        match cs with
        | c1 :: c2 :: c3 :: r =>
            if c1 = 'u' ∧ c2 = 'l' ∧ c3 = 'l' then some (Json.null, r) else none
        | _ => none
      else if c = 't' then
        match cs with
        | c1 :: c2 :: c3 :: r =>
            if c1 = 'r' ∧ c2 = 'u' ∧ c3 = 'e' then some (Json.bool true, r) else none
        | _ => none
      else if c = 'f' then
        match cs with
        | c1 :: c2 :: c3 :: c4 :: r =>
            if c1 = 'a' ∧ c2 = 'l' ∧ c3 = 's' ∧ c4 = 'e' then some (Json.bool false, r)
            else none
        | _ => none
      else if c = '"' then
        (parseStrChars cs).map (fun p => (Json.str (String.mk p.1), p.2))
      else if c = '[' then
        match skipWs cs with
        | [] => none
        | d :: r =>
          if d = ']' then some (Json.arr [], r)
          else
            match parseVal fuel cs with
            | some (v, r1) =>
              match parseArrTail fuel r1 with
              | some (vs, r2) => some (Json.arr (v :: vs), r2)
              | none => none
            | none => none
      else if c = lbrace then
        match skipWs cs with
        | [] => none
        | d :: r =>
          if d = rbrace then some (Json.obj [], r)
          else
            match parseMember fuel cs with
            | some (kv, r1) =>
              match parseObjTail fuel r1 with
              | some (ms, r2) => some (Json.obj (kv :: ms), r2)
              | none => none
            | none => none
      else if c = '-' ∨ c.isDigit then parseNum (c :: cs)
      else none

/-- Parse one object member: key string, colon, value. -/
def parseMember : ℕ → List Char → Option ((String × Json) × List Char)
  | 0, _ => none
  | fuel + 1, s =>
    match skipWs s with
    | [] => none
    | c :: cs =>
      if c = '"' then
        match parseStrChars cs with
        | some (k, r) =>
          match skipWs r with
          | [] => none
          | d :: r2 =>
            if d = ':' then
              match parseVal fuel r2 with
              | some (v, r3) => some ((String.mk k, v), r3)
              | none => none
            else none
        | none => none
      else none

/-- Parse the rest of an array after one element: comma-separated
elements then the closing bracket. -/
def parseArrTail : ℕ → List Char → Option (List Json × List Char)
  | 0, _ => none
  | fuel + 1, s =>
    match skipWs s with
    | [] => none
    | c :: r =>
      if c = ']' then some ([], r)
      else if c = ',' then
        match parseVal fuel r with
        | some (v, r1) =>
          match parseArrTail fuel r1 with
          | some (vs, r2) => some (v :: vs, r2)
          | none => none
        | none => none
      else none

/-- Parse the rest of an object after one member: comma-separated members
then the closing brace. -/
def parseObjTail : ℕ → List Char → Option (List (String × Json) × List Char)
  | 0, _ => none
  | fuel + 1, s =>
    match skipWs s with
    | [] => none
    | c :: r =>
      if c = rbrace then some ([], r)
      else if c = ',' then
        match parseMember fuel r with
        | some (kv, r1) =>
          match parseObjTail fuel r1 with
          | some (ms, r2) => some (kv :: ms, r2)
          | none => none
        | none => none
      else none
end

/-- json.loads: parse one value and require only whitespace to follow. -/
def loads (chars : List Char) : Option Json :=
  match parseVal (chars.length + 1) chars with
  | some (v, r) => if skipWs r = [] then some v else none
  | none => none

/-! ## UTF-8 (str.encode / bytes.decode) -/

/-- UTF-8 encoding of one character. -/
def utf8EncodeChar (c : Char) : List ℕ :=
  let n := c.toNat
  if n < 128 then [n]
  else if n < 2048 then [192 + n / 64, 128 + n % 64]
  else if n < 65536 then [224 + n / 4096, 128 + n / 64 % 64, 128 + n % 64]
  else [240 + n / 262144, 128 + n / 4096 % 64, 128 + n / 64 % 64, 128 + n % 64]

/-- str.encode to UTF-8. -/
def utf8Encode (s : List Char) : List ℕ := (s.map utf8EncodeChar).flatten

/-- A UTF-8 continuation byte. -/
def isCont (b : ℕ) : Bool := decide (128 ≤ b ∧ b < 192)

/-- Decode one UTF-8 sequence from the front of the byte stream,
rejecting overlong forms, surrogates and out-of-range sequences as
Python does. -/
def utf8DecodeChar (s : List ℕ) : Option (Char × List ℕ) :=
  match s with
  | [] => none
  | b :: rest =>
    if b < 128 then some (Char.ofNat b, rest)
    else if b < 194 then none
    else if b < 224 then
      match rest with
      | [] => none
      | b1 :: r =>
        if isCont b1 then some (Char.ofNat ((b - 192) * 64 + (b1 - 128)), r)
        else none
    else if b < 240 then
      match rest with
      | b1 :: b2 :: r =>
        if isCont b1 ∧ isCont b2 ∧ (b = 224 → 160 ≤ b1) ∧ ¬(b = 237 ∧ 160 ≤ b1) then
          some (Char.ofNat ((b - 224) * 4096 + (b1 - 128) * 64 + (b2 - 128)), r)
        else none
      | _ => none
    else if b < 245 then
      match rest with
      | b1 :: b2 :: b3 :: r =>
        if isCont b1 ∧ isCont b2 ∧ isCont b3 ∧ (b = 240 → 144 ≤ b1) ∧ (b = 244 → b1 < 144) then
          some (Char.ofNat ((b - 240) * 262144 + (b1 - 128) * 4096 +
            (b2 - 128) * 64 + (b3 - 128)), r)
        else none
      | _ => none
    else none

/-- Decode a whole byte stream, fuel-driven (each character consumes at
least one byte, so the stream length is enough fuel). -/
def utf8DecodeF : ℕ → List ℕ → Option (List Char)
  | 0, [] => some []
  | 0, _ :: _ => none
  | _ + 1, [] => some []
  | fuel + 1, b :: rest =>
    match utf8DecodeChar (b :: rest) with
    | some (c, r) => (utf8DecodeF fuel r).map (fun cs => c :: cs)
    | none => none

/-- bytes.decode from UTF-8. -/
def utf8Decode (s : List ℕ) : Option (List Char) := utf8DecodeF s.length s

/-! ## Full RPC codec -/

/-- The UTF-8 bytes of the JSON rendering of a message. -/
def dumps_bytes (m : Json) : List ℕ := utf8Encode (dumps m)

/-- send_message of common/protocol.py (the RPC client in
server_scraping.py frames identically): 4-byte big-endian length of the
UTF-8 JSON body, then the body. -/
def send_message (m : Json) : List ℕ :=
  packBE4 (dumps_bytes m).length ++ dumps_bytes m

/-- recv_message of common/protocol.py including bytes.decode and
json.loads. -/
def recv_message (s : List ℕ) : Except ProtoErr Json :=
  match recv_message_frame s with
  | Except.error e => Except.error e
  | Except.ok (body, _) =>
    match utf8Decode body with
    | none => Except.error ProtoErr.unicodeError
    | some chars =>
      match loads chars with
      | none => Except.error ProtoErr.jsonError
      | some v => Except.ok v

/-- The framed-reply decode of call_processing_server_async in
server_scraping.py including json decoding (bound 100_000_000). -/
def client_recv_message (s : List ℕ) : Except ProtoErr Json :=
  match client_recv_frame s with
  | Except.error e => Except.error e
  | Except.ok (body, _) =>
    match utf8Decode body with
    | none => Except.error ProtoErr.unicodeError
    | some chars =>
      match loads chars with
      | none => Except.error ProtoErr.jsonError
      | some v => Except.ok v

/-- Rest-of-input constraint under which an integer literal reparses:
the following character must not extend the number. -/
def Delim (rest : List Char) : Prop :=
  ∀ c, rest.head? = some c → ¬c.isDigit ∧ c ≠ '.' ∧ c ≠ 'e' ∧ c ≠ 'E'

theorem unpackBE4_packBE4 (n : ℕ) (h : n < 4294967296) : unpackBE4 (packBE4 n) = n := by
  simp only [packBE4, unpackBE4]
  omega

theorem recvFrame_encoded (maxLen L : ℕ) (body rest : List ℕ)
    (hL : L < 4294967296) (hlen : body.length = L) :
    recvFrame maxLen (packBE4 L ++ (body ++ rest)) =
      if L = 0 ∨ maxLen < L then Except.error ProtoErr.invalidSize
      else Except.ok (body, rest) := by
  have h4 : (packBE4 L).length = 4 := rfl
  have htake : (packBE4 L ++ (body ++ rest)).take 4 = packBE4 L := List.take_left' h4
  have hdrop : (packBE4 L ++ (body ++ rest)).drop 4 = body ++ rest := List.drop_left' h4
  simp only [recvFrame, recv_all]
  rw [if_pos (by simp [h4])]
  simp only [bind, Except.bind, htake, hdrop, unpackBE4_packBE4 L hL]
  by_cases hc : L ≤ 0 ∨ maxLen < L
  · rw [if_pos hc]
    have hc2 : L = 0 ∨ maxLen < L := by omega
    simp [hc2]
  · have hle : L ≤ (body ++ rest).length := by simp [hlen]
    rw [if_neg hc, if_pos hle]
    have hc2 : ¬(L = 0 ∨ maxLen < L) := by omega
    simp [hc2, List.take_left' hlen, List.drop_left' hlen]

/-! ## Claim C1 -/

/-- C1 counterexample: a frame whose length field is 100_000_001 is
accepted by recv_message (whole body read, no framing error), although
the claim demands every frame with L > 100_000_000 on the RPC path be
rejected.  recv_message's actual bound is 1_000_000_000. -/
theorem c1_counterexample :
    recv_message_frame (packBE4 100000001 ++ List.replicate 100000001 (0 : ℕ)) =
      Except.ok (List.replicate 100000001 (0 : ℕ), ([] : List ℕ)) := by
  have h := recvFrame_encoded 1000000000 100000001
    (List.replicate 100000001 (0 : ℕ)) [] (by norm_num) (List.length_replicate ..)
  rw [List.append_nil] at h
  rw [if_neg (by norm_num)] at h
  exact h

/-- C1 (amended): on a stream framing a body of L bytes, the client-side
decoder of the scraping server rejects exactly when L = 0 or
L > 100_000_000, while recv_message of common/protocol.py (the processing
server's decoder) rejects exactly when L = 0 or L > 1_000_000_000; an
accepted frame yields exactly the L body bytes, leaving the rest of the
stream unread. -/
theorem c1_framing_bounds (L : ℕ) (body rest : List ℕ)
    (hL : L < 4294967296) (hlen : body.length = L) :
    recv_message_frame (packBE4 L ++ (body ++ rest)) =
      (if L = 0 ∨ 1000000000 < L then Except.error ProtoErr.invalidSize
       else Except.ok (body, rest)) ∧
    client_recv_frame (packBE4 L ++ (body ++ rest)) =
      (if L = 0 ∨ 100000000 < L then Except.error ProtoErr.invalidSize
       else Except.ok (body, rest)) :=
  ⟨recvFrame_encoded 1000000000 L body rest hL hlen,
   recvFrame_encoded 100000000 L body rest hL hlen⟩

/-- C1 witness: the amended theorem applied to a concrete 3-byte frame. -/
theorem c1_framing_bounds_witness :
    (3 < 4294967296 ∧ ([1, 2, 3] : List ℕ).length = 3) ∧
    (recv_message_frame (packBE4 3 ++ (([1, 2, 3] : List ℕ) ++ [])) =
       (if (3 : ℕ) = 0 ∨ 1000000000 < (3 : ℕ) then Except.error ProtoErr.invalidSize
        else Except.ok (([1, 2, 3] : List ℕ), ([] : List ℕ))) ∧
     client_recv_frame (packBE4 3 ++ (([1, 2, 3] : List ℕ) ++ [])) =
       (if (3 : ℕ) = 0 ∨ 100000000 < (3 : ℕ) then Except.error ProtoErr.invalidSize
        else Except.ok (([1, 2, 3] : List ℕ), ([] : List ℕ)))) :=
  ⟨⟨by norm_num, by decide⟩, c1_framing_bounds 3 [1, 2, 3] [] (by norm_num) (by decide)⟩

/-! ## Claim C2 -/

theorem dropWhile_old_eq_filter (now : ℚ) (bucket : List ℚ)
    (hs : bucket.Pairwise (· ≤ ·)) :
    bucket.dropWhile (fun t => decide (60 < now - t)) =
      bucket.filter (fun t => decide (now - t ≤ 60)) := by
  induction bucket with
  | nil => rfl
  | cons h t ih =>
    rcases List.pairwise_cons.mp hs with ⟨hhead, htail⟩
    rw [List.dropWhile_cons, List.filter_cons]
    simp only [decide_eq_true_eq]
    by_cases hc : 60 < now - h
    · rw [if_pos hc, if_neg (not_le.mpr hc)]
      exact ih htail
    · rw [if_neg hc, if_pos (not_lt.mp hc)]
      congr 1
      refine (List.filter_eq_self.mpr ?_).symm
      intro a ha
      have h1 : h ≤ a := hhead a ha
      have h2 : now - h ≤ 60 := not_lt.mp hc
      simp only [decide_eq_true_eq]
      linarith

/-- C2 counterexample: with max = 1, now = 60 and the bucket [0], the code
keeps the boundary timestamp (60 − 0 is not &gt; 60) and rejects, while the
claim purges it (0 ≤ now − 60) and accepts. -/
theorem c2_counterexample :
    allow 1 60 [0] = (false, [0]) ∧ allowClaimed 1 60 [0] = (true, [60]) := by
  constructor <;>
    norm_num [allow, allowClaimed, List.dropWhile_cons, List.filter_cons,
      decide_eq_true_eq]

/-- C2 (amended): on a sorted bucket, allow returns true and leaves the
bucket untouched when max ≤ 0; otherwise it purges exactly the
timestamps t with now − t &gt; 60 (strictly older than the 60-second
period; the boundary timestamp now − 60 is kept), then rejects iff the
remaining count is ≥ max and otherwise appends now and accepts. -/
theorem c2_allow_spec (max : ℤ) (now : ℚ) (bucket : List ℚ)
    (hs : bucket.Pairwise (· ≤ ·)) :
    allow max now bucket =
      if max ≤ 0 then (true, bucket)
      else
        (let purged := bucket.filter (fun t => decide (now - t ≤ 60));
         if max ≤ (purged.length : ℤ) then (false, purged)
         else (true, purged ++ [now])) := by
  unfold allow
  by_cases hm : max ≤ 0
  · simp [hm]
  · simp only [if_neg hm]
    rw [dropWhile_old_eq_filter now bucket hs]

/-- C2 witness: the amended theorem applied to the sorted bucket [0, 30]
at instant 61 with limit 2: the timestamp 0 is purged (61 − 0 &gt; 60),
30 is kept, and the call admits, appending 61. -/
theorem c2_allow_spec_witness :
    ([(0 : ℚ), 30].Pairwise (· ≤ ·)) ∧ allow 2 61 [0, 30] = (true, [30, 61]) := by
  have hp : ([(0 : ℚ), 30].Pairwise (· ≤ ·)) := by norm_num [List.pairwise_cons]
  refine ⟨hp, ?_⟩
  have h := c2_allow_spec 2 61 [0, 30] hp
  rw [h]
  norm_num [List.filter_cons, decide_eq_true_eq]

/-! ## Claim C4 -/

/-- C4: reading a URL just written at time t returns the stored result and
leaves the map unchanged while now − t ≤ TTL, and once now − t &gt; TTL the
read misses and deletes the stale entry; a later set for the same URL
simply overwrites the earlier one. -/
theorem c4_cache_ttl {α : Type} (ttl t now : ℚ)
    (entries : String → Option (ℚ × α)) (u : String) (r : α) :
    cache_get ttl now (cache_set t entries u r) u =
      (if ttl < now - t
       then (none, fun v => if v = u then none else cache_set t entries u r v)
       else (some r, cache_set t entries u r)) ∧
    (∀ t2 r2, cache_set t2 (cache_set t entries u r) u r2 = cache_set t2 entries u r2) := by
  constructor
  · simp [cache_get, cache_set]
  · intro t2 r2
    funext v
    by_cases hv : v = u <;> simp [cache_set, hv]

/-! ## Claim C5 -/

/-- C5 counterexample: the operation sequence create_task followed by
set_status with status completed (and the default error None) is a legal
TaskManager call sequence, and it yields a record with status completed
but result null, violating the claimed invariant. -/
theorem c5_counterexample :
    ¬ RecordInv (runOps (α := ℕ) ("u") [TMOp.opStatus ("completed") none]) := by
  decide

theorem runOps_status_phase {α : Type} (ops : List (TMOp α))
    (hv : ∀ op ∈ ops, ValidStatusOp op) (r : TaskRecord α)
    (hr : r.result = none ∧ r.status ≠ "completed" ∧
      (r.status = "failed" → r.error ≠ none)) :
    (ops.foldl applyOp r).result = none ∧
    (ops.foldl applyOp r).status ≠ "completed" ∧
    ((ops.foldl applyOp r).status = "failed" → (ops.foldl applyOp r).error ≠ none) := by
  induction ops generalizing r with
  | nil => exact hr
  | cons op rest ih =>
    have hop := hv op (by simp)
    have hrest : ∀ o ∈ rest, ValidStatusOp o := fun o ho => hv o (by simp [ho])
    cases op with
    | opStatus s e =>
      refine ih hrest _ ?_
      rcases hop with ⟨hs, he⟩ | ⟨hs, he⟩
      · refine ⟨hr.1, ?_, ?_⟩
        · show s ≠ "completed"
          rcases hs with hs | hs <;> subst hs <;> decide
        · show s = "failed" → e ≠ none
          intro hf
          rcases hs with hs | hs <;> subst hs <;> exact absurd hf (by decide)
      · subst hs
        refine ⟨hr.1, ?_, fun _ => he⟩
        show ("failed" : String) ≠ "completed"
        decide
    | opResult res s => exact absurd hop (by simp [ValidStatusOp])

theorem runOps_result_phase {α : Type} (ops : List (TMOp α))
    (hv : ∀ op ∈ ops, ValidResultOp op) (r : TaskRecord α)
    (hr : RecordInv r) : RecordInv (ops.foldl applyOp r) := by
  induction ops generalizing r with
  | nil => exact hr
  | cons op rest ih =>
    have hop := hv op (by simp)
    have hrest : ∀ o ∈ rest, ValidResultOp o := fun o ho => hv o (by simp [ho])
    cases op with
    | opStatus s e => exact absurd hop (by simp [ValidResultOp])
    | opResult res s =>
      refine ih hrest _ ?_
      have hs : s = "completed" := hop
      subst hs
      refine ⟨fun _ => ⟨?_, rfl⟩, fun hfail => ?_⟩
      · show some res ≠ none
        simp
      · have hfail2 : ("completed" : String) = "failed" := hfail
        exact absurd hfail2 (by decide)

/-- C5 (amended): the invariant (completed ⇒ result non-null and error
null; failed ⇒ result null and error non-null) holds for every record
reachable by the call pattern the server actually uses: first any number
of set_status calls restricted to scraping/processing without error or
failed with a non-null error, then any number of set_result calls with
status completed. -/
theorem c5_record_invariant {α : Type} (url : String) (ops1 ops2 : List (TMOp α))
    (h1 : ∀ op ∈ ops1, ValidStatusOp op) (h2 : ∀ op ∈ ops2, ValidResultOp op) :
    RecordInv (runOps url (ops1 ++ ops2)) := by
  unfold runOps
  rw [List.foldl_append]
  refine runOps_result_phase ops2 h2 _ ?_
  have hinit : (create_task (α := α) url).result = none ∧
      (create_task (α := α) url).status ≠ "completed" ∧
      ((create_task (α := α) url).status = "failed" →
        (create_task (α := α) url).error ≠ none) := by
    refine ⟨rfl, ?_, ?_⟩
    · show ("pending" : String) ≠ "completed"
      decide
    · intro hf
      have hf2 : ("pending" : String) = "failed" := hf
      exact absurd hf2 (by decide)
  have hphase := runOps_status_phase ops1 h1 (create_task url) hinit
  exact ⟨fun hc => absurd hc hphase.2.1, fun hf => ⟨hphase.1, hphase.2.2 hf⟩⟩

/-- C5 witness: the amended theorem applied to the sequence the pipeline
performs on a successful run: scraping, processing, then one result. -/
theorem c5_record_invariant_witness :
    (∀ op ∈ ([TMOp.opStatus ("scraping") none,
              TMOp.opStatus ("processing") none] : List (TMOp ℕ)), ValidStatusOp op) ∧
    (∀ op ∈ ([TMOp.opResult 5 ("completed")] : List (TMOp ℕ)), ValidResultOp op) ∧
    RecordInv (runOps ("u")
      ([TMOp.opStatus ("scraping") none, TMOp.opStatus ("processing") none] ++
       [TMOp.opResult 5 ("completed")])) :=
  ⟨by decide, by decide,
   c5_record_invariant ("u") _ _ (by decide) (by decide)⟩

/-! ## Claim C3 -/

/-- C3: for a task whose fetch succeeded, the pipeline always completes
the task with a result whose status is success or partial, and — provided
the RPC outcome is an exception or one of the processing server's two
reply shapes — the result is partial exactly when processing_error is
present; when the RPC raised, the result is partial with empty
processing_data and the error message recorded. -/
theorem c3_partial_semantics {α : Type} (url ts : String) (sdata : α)
    (rpc : RpcOutcome) (hw : WfRpc rpc) :
    (process_scrape_task url ts (FetchOutcome.fetched sdata) rpc).status = "completed" ∧
    ∃ doc, (process_scrape_task url ts (FetchOutcome.fetched sdata) rpc).result = some doc ∧
      (doc.status = "success" ∨ doc.status = "partial") ∧
      (doc.status = "partial" ↔ doc.processing_error ≠ none) ∧
      (∀ msg, rpc = RpcOutcome.exc msg →
        doc.status = "partial" ∧ doc.processing_data = Json.obj [] ∧
          doc.processing_error = some msg) := by
  rcases hw with ⟨msg, rfl⟩ | ⟨d, rfl⟩ | ⟨msg, rfl⟩
  · refine ⟨rfl, _, rfl, Or.inr ?_, ?_, ?_⟩
    · rfl
    · exact ⟨fun _ => Option.some_ne_none msg, fun _ => rfl⟩
    · intro m hm
      cases hm
      exact ⟨rfl, rfl, rfl⟩
  · refine ⟨rfl, _, rfl, Or.inl rfl, ?_, ?_⟩
    · refine ⟨fun h => ?_, fun h => absurd rfl h⟩
      have h2 : ("success" : String) = "partial" := h
      exact absurd h2 (by decide)
    · intro m hm
      cases hm
  · refine ⟨rfl, _, rfl, Or.inr rfl, ?_, ?_⟩
    · exact ⟨fun _ => Option.some_ne_none msg, fun _ => rfl⟩
    · intro m hm
      cases hm

/-- C3 witness: an RPC exception on a concrete run yields a completed
task with a partial result carrying the error. -/
theorem c3_partial_semantics_witness :
    WfRpc (RpcOutcome.exc ("OSError: connection refused")) ∧
    ((process_scrape_task (α := ℕ) ("http://a") ("t") (FetchOutcome.fetched 0)
        (RpcOutcome.exc ("OSError: connection refused"))).status = "completed" ∧
     ∃ doc, (process_scrape_task (α := ℕ) ("http://a") ("t") (FetchOutcome.fetched 0)
        (RpcOutcome.exc ("OSError: connection refused"))).result = some doc ∧
      (doc.status = "success" ∨ doc.status = "partial") ∧
      (doc.status = "partial" ↔ doc.processing_error ≠ none) ∧
      (∀ msg, RpcOutcome.exc ("OSError: connection refused") = RpcOutcome.exc msg →
        doc.status = "partial" ∧ doc.processing_data = Json.obj [] ∧
          doc.processing_error = some msg)) :=
  ⟨Or.inl ⟨_, rfl⟩,
   c3_partial_semantics ("http://a") ("t") 0 (RpcOutcome.exc ("OSError: connection refused"))
     (Or.inl ⟨_, rfl⟩)⟩

/-! ## Claim C6 -/

/-- C6: when the HTTP fetch times out, the pipeline fails the task with
the exact error Timeout, attaches no result, and writes nothing to the
cache. -/
theorem c6_timeout {α : Type} (url ts : String) (fetch : FetchOutcome α)
    (rpc : RpcOutcome) (h : fetch = FetchOutcome.timeout) :
    process_scrape_task url ts fetch rpc =
      { status := ("failed"), result := none, error := some ("Timeout"),
        cacheWrite := none } := by
  subst h
  rfl

/-- C6 witness: the theorem at a concrete timed-out run. -/
theorem c6_timeout_witness :
    (FetchOutcome.timeout : FetchOutcome ℕ) = FetchOutcome.timeout ∧
    process_scrape_task ("http://a") ("t") (FetchOutcome.timeout : FetchOutcome ℕ)
        (RpcOutcome.exc ("x")) =
      { status := ("failed"), result := none, error := some ("Timeout"),
        cacheWrite := none } :=
  ⟨rfl, c6_timeout ("http://a") ("t") FetchOutcome.timeout (RpcOutcome.exc ("x")) rfl⟩

/-! ## Claim C7 -/

/-- C7: the SEO score is exactly the stated sum of weighted checks capped
at 100, never exceeds 100, and on the oracle input (21-character title, a
60-character description, one h1, canonical present, robots absent, an
og: meta present) the score is 95 with h1_count 1. -/
theorem c7_seo_score (title description : String) (h1_count : ℕ)
    (canonical robots og : Bool) :
    ((evaluate_seo title description h1_count canonical robots og).score =
      min ((if title ≠ "" then 15 else 0) +
           (if 10 ≤ title.length ∧ title.length ≤ 70 then 20 else 0) +
           (if description ≠ "" then 15 else 0) +
           (if 50 ≤ description.length ∧ description.length ≤ 160 then 15 else 0) +
           (if h1_count = 1 then 10 else 0) +
           (if canonical then 10 else 0) +
           (if robots then 5 else 0) +
           (if og then 10 else 0)) 100 ∧
     (evaluate_seo title description h1_count canonical robots og).score ≤ 100) ∧
    (evaluate_seo ("Example title for SEO") (String.mk (List.replicate 60 ('a')))
        1 true false true).score = 95 ∧
    (evaluate_seo ("Example title for SEO") (String.mk (List.replicate 60 ('a')))
        1 true false true).h1_count = 1 := by
  refine ⟨⟨?_, ?_⟩, ?_, ?_⟩
  · simp [evaluate_seo]
  · simp [evaluate_seo]
  · decide
  · decide

/-! ## Claim C9 -/

/-- C9 counterexample: with the rate limit configured to 0, a /scrape
request is admitted (202, pipeline scheduled) yet the domain bucket stays
empty — no admission timestamp is consumed, against the claim's "every
admitted request consumes one admission timestamp". -/
theorem c9_counterexample :
    (handle_scrape (α := ℕ) 0 3600 100 (some ("example.com")) ("http://example.com/")
        { buckets := fun _ => [], entries := fun _ => none, tasks := [] }).1 =
      ScrapeResponse.accepted ∧
    (handle_scrape (α := ℕ) 0 3600 100 (some ("example.com")) ("http://example.com/")
        { buckets := fun _ => [], entries := fun _ => none, tasks := [] }).2.buckets
      ("example.com") = [] := by
  constructor
  · rfl
  · show (if ("example.com" : String) = "example.com" then ([] : List ℚ) else []) = []
    rw [if_pos rfl]

/-- C9 (amended): with a positive per-domain limit, the rate limiter acts
before the cache and the task list: when the purged window is already at
the limit the request is answered 429 with the cache entries and task
list exactly as before (even if a fresh cache entry exists for the URL),
and when it is admitted — cache hit or not — the domain bucket becomes
the purged window plus the new admission timestamp. -/
theorem c9_rate_limit_order {α : Type} (max : ℤ) (ttl now : ℚ)
    (domain url : String) (st : ScrapeState α) (hmax : 0 < max) :
    (max ≤ (((st.buckets domain).dropWhile
          (fun t => decide (60 < now - t))).length : ℤ) →
      handle_scrape max ttl now (some domain) url st =
        (ScrapeResponse.rateLimited,
         { st with buckets := fun d => if d = domain
            then (st.buckets domain).dropWhile (fun t => decide (60 < now - t))
            else st.buckets d })) ∧
    ((((st.buckets domain).dropWhile
          (fun t => decide (60 < now - t))).length : ℤ) < max →
      ((handle_scrape max ttl now (some domain) url st).2.buckets domain =
        (st.buckets domain).dropWhile (fun t => decide (60 < now - t)) ++ [now] ∧
       ((handle_scrape max ttl now (some domain) url st).1 =
          ScrapeResponse.cachedCompleted ∨
        (handle_scrape max ttl now (some domain) url st).1 =
          ScrapeResponse.accepted))) := by
  have hm : ¬max ≤ 0 := not_le.mpr hmax
  constructor
  · intro hfull
    simp only [handle_scrape, allow, if_neg hm, if_pos hfull]
    rfl
  · intro hroom
    have hnot : ¬max ≤ (((st.buckets domain).dropWhile
        (fun t => decide (60 < now - t))).length : ℤ) := not_le.mpr hroom
    simp only [handle_scrape, allow, if_neg hm, if_neg hnot]
    simp only [not_true, if_neg, ite_false, if_false]
    constructor
    · cases hread : (cache_get ttl now st.entries url).1 <;>
        simp [hread, if_pos rfl]
    · cases hread : (cache_get ttl now st.entries url).1 <;> simp [hread]

/-- C9 witness: limit 1, empty state: the request is admitted and the
bucket gains the admission timestamp. -/
theorem c9_rate_limit_order_witness :
    ((0 : ℤ) < 1 ∧
     ((((fun _ => [] : String → List ℚ) ("d")).dropWhile
          (fun t => decide (60 < (100 : ℚ) - t))).length : ℤ) < 1) ∧
    ((handle_scrape (α := ℕ) 1 3600 100 (some ("d")) ("u")
        { buckets := fun _ => [], entries := fun _ => none, tasks := [] }).2.buckets
      ("d") = [(100 : ℚ)] ∧
     ((handle_scrape (α := ℕ) 1 3600 100 (some ("d")) ("u")
        { buckets := fun _ => [], entries := fun _ => none, tasks := [] }).1 =
        ScrapeResponse.cachedCompleted ∨
      (handle_scrape (α := ℕ) 1 3600 100 (some ("d")) ("u")
        { buckets := fun _ => [], entries := fun _ => none, tasks := [] }).1 =
        ScrapeResponse.accepted)) := by
  have h := c9_rate_limit_order (α := ℕ) 1 3600 100 ("d") ("u")
    { buckets := fun _ => [], entries := fun _ => none, tasks := [] } (by norm_num)
  have hroom : ((((fun _ => [] : String → List ℚ) ("d")).dropWhile
      (fun t => decide (60 < (100 : ℚ) - t))).length : ℤ) < 1 := by
    simp
  refine ⟨⟨by norm_num, hroom⟩, ?_⟩
  have h2 := h.2 hroom
  simpa using h2

/-! ## Claim C10 -/

/-- C10: with empty HTML the four HTML-driven analyzers contribute their
neutral defaults regardless of their outcomes and flags, and with no
image URLs the thumbnails stay empty. -/
theorem c10_empty_inputs (tasks : TaskFlags) (urls : List String) (html : String)
    (r1 r2 r3 r4 r5 r6 r7 : Except String Json) :
    ((process_tasks tasks urls ("") r1 r2 r3 r4 r5 r6 r7).tech_stack = Json.arr [] ∧
     (process_tasks tasks urls ("") r1 r2 r3 r4 r5 r6 r7).seo = Json.obj [] ∧
     (process_tasks tasks urls ("") r1 r2 r3 r4 r5 r6 r7).structured_data = Json.arr [] ∧
     (process_tasks tasks urls ("") r1 r2 r3 r4 r5 r6 r7).accessibility = Json.obj []) ∧
    (process_tasks tasks [] html r1 r2 r3 r4 r5 r6 r7).thumbnails = Json.arr [] := by
  refine ⟨⟨?_, ?_, ?_, ?_⟩, ?_⟩ <;> simp [process_tasks]

/-! ## Claim C8: helper lemmas -/

theorem char_valid_nat (c : Char) :
    c.toNat < 55296 ∨ (57344 ≤ c.toNat ∧ c.toNat < 1114112) := by
  rcases c.valid with h | ⟨h1, h2⟩
  · left
    simpa [Char.toNat, UInt32.lt_def, BitVec.lt_def] using h
  · right
    constructor
    · simpa [Char.toNat, UInt32.le_def, BitVec.le_def] using h1
    · simpa [Char.toNat, UInt32.lt_def, BitVec.lt_def] using h2

theorem utf8DecodeChar_enc (c : Char) (bs : List ℕ) :
    utf8DecodeChar (utf8EncodeChar c ++ bs) = some (c, bs) := by
  have hv := char_valid_nat c
  by_cases h1 : c.toNat < 128
  · have he : utf8EncodeChar c = [c.toNat] := by
      simp only [utf8EncodeChar]
      rw [if_pos h1]
    rw [he, List.cons_append, List.nil_append]
    simp only [utf8DecodeChar]
    rw [if_pos h1, Char.ofNat_toNat]
  · by_cases h2 : c.toNat < 2048
    · have he : utf8EncodeChar c = [192 + c.toNat / 64, 128 + c.toNat % 64] := by
        simp only [utf8EncodeChar]
        rw [if_neg h1, if_pos h2]
      rw [he, List.cons_append, List.cons_append, List.nil_append]
      simp only [utf8DecodeChar]
      rw [if_neg (by omega), if_neg (by omega), if_pos (by omega),
        if_pos (show isCont (128 + c.toNat % 64) = true by
          simp only [isCont, decide_eq_true_eq]
          omega)]
      have harg : (192 + c.toNat / 64 - 192) * 64 + (128 + c.toNat % 64 - 128) =
          c.toNat := by omega
      rw [harg, Char.ofNat_toNat]
    · by_cases h3 : c.toNat < 65536
      · have he : utf8EncodeChar c =
            [224 + c.toNat / 4096, 128 + c.toNat / 64 % 64, 128 + c.toNat % 64] := by
          simp only [utf8EncodeChar]
          rw [if_neg h1, if_neg h2, if_pos h3]
        rw [he, List.cons_append, List.cons_append, List.cons_append, List.nil_append]
        simp only [utf8DecodeChar]
        rw [if_neg (by omega), if_neg (by omega), if_neg (by omega), if_pos (by omega),
          if_pos ?_]
        · have harg : (224 + c.toNat / 4096 - 224) * 4096 +
              (128 + c.toNat / 64 % 64 - 128) * 64 + (128 + c.toNat % 64 - 128) =
              c.toNat := by omega
          rw [harg, Char.ofNat_toNat]
        · refine ⟨by simp only [isCont, decide_eq_true_eq]; omega,
            by simp only [isCont, decide_eq_true_eq]; omega, ?_, ?_⟩
          · intro hb
            omega
          · rintro ⟨hb, hb1⟩
            omega
      · have he : utf8EncodeChar c =
            [240 + c.toNat / 262144, 128 + c.toNat / 4096 % 64,
             128 + c.toNat / 64 % 64, 128 + c.toNat % 64] := by
          simp only [utf8EncodeChar]
          rw [if_neg h1, if_neg h2, if_neg h3]
        have hup : c.toNat < 1114112 := by omega
        rw [he, List.cons_append, List.cons_append, List.cons_append, List.cons_append,
          List.nil_append]
        simp only [utf8DecodeChar]
        rw [if_neg (by omega), if_neg (by omega), if_neg (by omega), if_neg (by omega),
          if_pos (by omega), if_pos ?_]
        · have harg : (240 + c.toNat / 262144 - 240) * 262144 +
              (128 + c.toNat / 4096 % 64 - 128) * 4096 +
              (128 + c.toNat / 64 % 64 - 128) * 64 + (128 + c.toNat % 64 - 128) =
              c.toNat := by omega
          rw [harg, Char.ofNat_toNat]
        · refine ⟨by simp only [isCont, decide_eq_true_eq]; omega,
            by simp only [isCont, decide_eq_true_eq]; omega,
            by simp only [isCont, decide_eq_true_eq]; omega, ?_, ?_⟩
          · intro hb
            omega
          · intro hb
            omega

theorem utf8EncodeChar_ne_nil (c : Char) : utf8EncodeChar c ≠ [] := by
  simp only [utf8EncodeChar]
  split_ifs <;> simp

theorem utf8EncodeChar_length_pos (c : Char) : 1 ≤ (utf8EncodeChar c).length := by
  simp only [utf8EncodeChar]
  split_ifs <;> simp

theorem utf8Encode_length_ge (cs : List Char) :
    cs.length ≤ (utf8Encode cs).length := by
  induction cs with
  | nil => simp [utf8Encode]
  | cons c t ih =>
    simp only [utf8Encode, List.map_cons, List.flatten_cons, List.length_append,
      List.length_cons]
    have hc := utf8EncodeChar_length_pos c
    simp only [utf8Encode] at ih
    omega

theorem utf8DecodeF_roundtrip (cs : List Char) : ∀ f, cs.length ≤ f →
    utf8DecodeF f (utf8Encode cs) = some cs := by
  induction cs with
  | nil =>
    intro f _
    cases f <;> rfl
  | cons c t ih =>
    intro f hf
    cases f with
    | zero => simp at hf
    | succ f =>
      obtain ⟨b, bb, hb⟩ : ∃ b bb, utf8EncodeChar c = b :: bb := by
        cases henc : utf8EncodeChar c with
        | nil => exact absurd henc (utf8EncodeChar_ne_nil c)
        | cons x xs => exact ⟨x, xs, rfl⟩
      have hsplit : utf8Encode (c :: t) = b :: (bb ++ utf8Encode t) := by
        simp [utf8Encode, hb]
      have hdec : utf8DecodeChar (b :: (bb ++ utf8Encode t)) = some (c, utf8Encode t) := by
        rw [show b :: (bb ++ utf8Encode t) = (b :: bb) ++ utf8Encode t from rfl, ← hb]
        exact utf8DecodeChar_enc c _
      rw [hsplit]
      simp only [utf8DecodeF, hdec]
      have ht : t.length ≤ f := by
        simp only [List.length_cons] at hf
        omega
      rw [ih f ht]
      rfl

theorem utf8_roundtrip (cs : List Char) : utf8Decode (utf8Encode cs) = some cs :=
  utf8DecodeF_roundtrip cs _ (utf8Encode_length_ge cs)

/-! String-literal escaping round trip. -/

theorem parseStr_step_dquote (x : List Char) :
    parseStrChars ('\\' :: '"' :: x) =
      (parseStrChars x).map (fun p => (('"' : Char) :: p.1, p.2)) := rfl

theorem parseStr_step_bslash (x : List Char) :
    parseStrChars ('\\' :: '\\' :: x) =
      (parseStrChars x).map (fun p => (('\\' : Char) :: p.1, p.2)) := rfl

theorem parseStr_step_b (x : List Char) :
    parseStrChars ('\\' :: 'b' :: x) =
      (parseStrChars x).map (fun p => (Char.ofNat 8 :: p.1, p.2)) := rfl

theorem parseStr_step_t (x : List Char) :
    parseStrChars ('\\' :: 't' :: x) =
      (parseStrChars x).map (fun p => (Char.ofNat 9 :: p.1, p.2)) := rfl

theorem parseStr_step_n (x : List Char) :
    parseStrChars ('\\' :: 'n' :: x) =
      (parseStrChars x).map (fun p => (Char.ofNat 10 :: p.1, p.2)) := rfl

theorem parseStr_step_f (x : List Char) :
    parseStrChars ('\\' :: 'f' :: x) =
      (parseStrChars x).map (fun p => (Char.ofNat 12 :: p.1, p.2)) := rfl

theorem parseStr_step_r (x : List Char) :
    parseStrChars ('\\' :: 'r' :: x) =
      (parseStrChars x).map (fun p => (Char.ofNat 13 :: p.1, p.2)) := rfl

theorem parseStr_step_u (h1 h2 h3 h4 : Char) (x : List Char) (a b c3 d : ℕ)
    (e1 : hexVal h1 = some a) (e2 : hexVal h2 = some b)
    (e3 : hexVal h3 = some c3) (e4 : hexVal h4 = some d) :
    parseStrChars ('\\' :: 'u' :: h1 :: h2 :: h3 :: h4 :: x) =
      (parseStrChars x).map
        (fun p => (Char.ofNat (((a * 16 + b) * 16 + c3) * 16 + d) :: p.1, p.2)) := by
  rw [show parseStrChars ('\\' :: 'u' :: h1 :: h2 :: h3 :: h4 :: x) =
      (match hexVal h1, hexVal h2, hexVal h3, hexVal h4 with
       | some a, some b, some c3, some d =>
           (parseStrChars x).map
             (fun p => (Char.ofNat (((a * 16 + b) * 16 + c3) * 16 + d) :: p.1, p.2))
       | _, _, _, _ => none) from rfl,
    e1, e2, e3, e4]

theorem parseStr_step_ord (c : Char) (x : List Char) (hc1 : c ≠ '"')
    (hc2 : c ≠ '\\') (hc3 : ¬c.toNat < 32) :
    parseStrChars (c :: x) = (parseStrChars x).map (fun p => (c :: p.1, p.2)) := by
  rw [show parseStrChars (c :: x) =
      (if c = '"' then some ([], x)
       else if c = '\\' then parseStrEsc x
       else if c.toNat < 32 then none
       else (parseStrChars x).map (fun p => (c :: p.1, p.2))) from rfl,
    if_neg hc1, if_neg hc2, if_neg hc3]

theorem hexVal_hexDig : ∀ n, n < 16 → hexVal (hexDig n) = some n := by decide

theorem escapeChar_ctrl (c : Char) (h : c.toNat < 32) (h8 : c.toNat ≠ 8)
    (h9 : c.toNat ≠ 9) (h10 : c.toNat ≠ 10) (h12 : c.toNat ≠ 12)
    (h13 : c.toNat ≠ 13) :
    escapeChar c =
      ['\\', 'u', '0', '0', hexDig (c.toNat / 16), hexDig (c.toNat % 16)] := by
  have hq : c ≠ '"' := by
    intro hc
    rw [hc] at h
    exact absurd h (by decide)
  have hb : c ≠ '\\' := by
    intro hc
    rw [hc] at h
    exact absurd h (by decide)
  simp only [escapeChar]
  rw [if_neg hq, if_neg hb, if_pos h, if_neg h8, if_neg h9, if_neg h10, if_neg h12,
    if_neg h13]

theorem parseStrChars_escape (cs rest : List Char) :
    parseStrChars ((cs.map escapeChar).flatten ++ ('"' :: rest)) = some (cs, rest) := by
  induction cs with
  | nil => rfl
  | cons c cs ih =>
    have hl : (((c :: cs).map escapeChar).flatten ++ ('"' :: rest)) =
        escapeChar c ++ ((cs.map escapeChar).flatten ++ ('"' :: rest)) := by
      simp [List.append_assoc]
    rw [hl]
    by_cases h1 : c = '"'
    · subst h1
      rw [show escapeChar ('"') = ['\\', '"'] from rfl]
      rw [List.cons_append, List.cons_append, List.nil_append, parseStr_step_dquote, ih]
      rfl
    · by_cases h2 : c = '\\'
      · subst h2
        rw [show escapeChar ('\\') = ['\\', '\\'] from rfl]
        rw [List.cons_append, List.cons_append, List.nil_append, parseStr_step_bslash, ih]
        rfl
      · by_cases h3 : c.toNat < 32
        · by_cases h8 : c.toNat = 8
          · have hc : c = Char.ofNat 8 := by
              rw [← Char.ofNat_toNat c, h8]
            subst hc
            rw [show escapeChar (Char.ofNat 8) = ['\\', 'b'] from rfl]
            rw [List.cons_append, List.cons_append, List.nil_append, parseStr_step_b, ih]
            rfl
          · by_cases h9 : c.toNat = 9
            · have hc : c = Char.ofNat 9 := by
                rw [← Char.ofNat_toNat c, h9]
              subst hc
              rw [show escapeChar (Char.ofNat 9) = ['\\', 't'] from rfl]
              rw [List.cons_append, List.cons_append, List.nil_append, parseStr_step_t, ih]
              rfl
            · by_cases h10 : c.toNat = 10
              · have hc : c = Char.ofNat 10 := by
                  rw [← Char.ofNat_toNat c, h10]
                subst hc
                rw [show escapeChar (Char.ofNat 10) = ['\\', 'n'] from rfl]
                rw [List.cons_append, List.cons_append, List.nil_append,
                  parseStr_step_n, ih]
                rfl
              · by_cases h12 : c.toNat = 12
                · have hc : c = Char.ofNat 12 := by
                    rw [← Char.ofNat_toNat c, h12]
                  subst hc
                  rw [show escapeChar (Char.ofNat 12) = ['\\', 'f'] from rfl]
                  rw [List.cons_append, List.cons_append, List.nil_append,
                    parseStr_step_f, ih]
                  rfl
                · by_cases h13 : c.toNat = 13
                  · have hc : c = Char.ofNat 13 := by
                      rw [← Char.ofNat_toNat c, h13]
                    subst hc
                    rw [show escapeChar (Char.ofNat 13) = ['\\', 'r'] from rfl]
                    rw [List.cons_append, List.cons_append, List.nil_append,
                      parseStr_step_r, ih]
                    rfl
                  · rw [escapeChar_ctrl c h3 h8 h9 h10 h12 h13]
                    rw [List.cons_append, List.cons_append, List.cons_append,
                      List.cons_append, List.cons_append, List.cons_append,
                      List.nil_append]
                    rw [parseStr_step_u ('0') ('0') (hexDig (c.toNat / 16))
                      (hexDig (c.toNat % 16)) _ 0 0 (c.toNat / 16) (c.toNat % 16)
                      rfl rfl (hexVal_hexDig _ (by omega)) (hexVal_hexDig _ (by omega)),
                      ih]
                    have harg : ((0 * 16 + 0) * 16 + c.toNat / 16) * 16 + c.toNat % 16 =
                        c.toNat := by omega
                    rw [harg, Char.ofNat_toNat]
                    rfl
        · have he : escapeChar c = [c] := by
            simp only [escapeChar]
            rw [if_neg h1, if_neg h2, if_neg h3]
          rw [he, List.cons_append, List.nil_append,
            parseStr_step_ord c _ h1 h2 h3, ih]
          rfl

/-! Decimal digits round trip. -/

theorem natDigitsRevFuel_eq (f : ℕ) : ∀ n, n ≤ f →
    natDigitsRevFuel f n = Nat.digits 10 n := by
  induction f with
  | zero =>
    intro n hn
    have : n = 0 := Nat.le_zero.mp hn
    subst this
    simp [natDigitsRevFuel]
  | succ f ih =>
    intro n hn
    by_cases h0 : n = 0
    · subst h0
      simp [natDigitsRevFuel]
    · simp only [natDigitsRevFuel, if_neg h0]
      rw [Nat.digits_def' (by norm_num : (1 : ℕ) < 10) (Nat.pos_of_ne_zero h0)]
      congr 1
      exact ih (n / 10) (by omega)

theorem foldl_base10_reverse (l : List ℕ) (a : ℕ) :
    l.reverse.foldl (fun acc d => 10 * acc + d) a =
      a * 10 ^ l.length + Nat.ofDigits 10 l := by
  induction l generalizing a with
  | nil => simp
  | cons d t ih =>
    simp only [List.reverse_cons, List.foldl_append, List.foldl_cons, List.foldl_nil,
      ih, Nat.ofDigits_cons, List.length_cons]
    ring

theorem digitChar_toNat : ∀ d, d < 10 → (Char.ofNat (48 + d)).toNat = 48 + d := by
  decide

theorem digitChar_isDigit : ∀ d, d < 10 → (Char.ofNat (48 + d)).isDigit = true := by
  decide

theorem digitChar_zero : ∀ d, d < 10 → Char.ofNat (48 + d) = '0' → d = 0 := by
  decide

theorem digitChar_ne_minus : ∀ d, d < 10 → Char.ofNat (48 + d) ≠ '-' := by
  decide

theorem foldl_digits_map (l : List ℕ) (hl : ∀ d ∈ l, d < 10) : ∀ a : ℕ,
    (l.map (fun d => Char.ofNat (48 + d))).foldl
        (fun acc c => 10 * acc + (c.toNat - 48)) a =
      l.foldl (fun acc d => 10 * acc + d) a := by
  induction l with
  | nil =>
    intro a
    rfl
  | cons d t ih =>
    intro a
    simp only [List.map_cons, List.foldl_cons]
    rw [digitChar_toNat d (hl d (by simp))]
    have harg : 48 + d - 48 = d := by omega
    rw [harg]
    exact ih (fun x hx => hl x (by simp [hx])) _

theorem natChars_ne_nil (n : ℕ) : natChars n ≠ [] := by
  by_cases h0 : n = 0
  · subst h0
    decide
  · simp only [natChars, if_neg h0]
    intro hc
    have hlen := congrArg List.length hc
    simp only [List.length_map, List.length_reverse, List.length_nil] at hlen
    rw [natDigitsRevFuel_eq n n le_rfl] at hlen
    exact absurd (List.length_eq_zero.mp hlen)
      (Nat.digits_ne_nil_iff_ne_zero.mpr h0)

theorem natChars_all_digits (n : ℕ) : ∀ c ∈ natChars n, c.isDigit = true := by
  by_cases h0 : n = 0
  · subst h0
    decide
  · simp only [natChars, if_neg h0]
    intro c hc
    rw [List.mem_map] at hc
    obtain ⟨d, hd, rfl⟩ := hc
    rw [List.mem_reverse, natDigitsRevFuel_eq n n le_rfl] at hd
    exact digitChar_isDigit d (Nat.digits_lt_base (by norm_num) hd)

theorem digitsVal_natChars (n : ℕ) : digitsVal (natChars n) = n := by
  by_cases h0 : n = 0
  · subst h0
    rfl
  · simp only [natChars, if_neg h0, digitsVal]
    rw [natDigitsRevFuel_eq n n le_rfl]
    rw [show (Nat.digits 10 n).reverse.map (fun d => Char.ofNat (48 + d)) =
        ((Nat.digits 10 n).reverse).map (fun d => Char.ofNat (48 + d)) from rfl]
    rw [foldl_digits_map ((Nat.digits 10 n).reverse)
      (fun d hd => Nat.digits_lt_base (by norm_num) (List.mem_reverse.mp hd)) 0]
    rw [foldl_base10_reverse (Nat.digits 10 n) 0]
    simp [Nat.ofDigits_digits]

theorem natChars_no_leading_zero (n : ℕ) :
    ¬(1 < (natChars n).length ∧ (natChars n).head? = some ('0')) := by
  by_cases h0 : n = 0
  · subst h0
    decide
  · rintro ⟨hlen, hhead⟩
    have hnc : natChars n =
        ((Nat.digits 10 n).reverse).map (fun d => Char.ofNat (48 + d)) := by
      rw [natChars, if_neg h0, natDigitsRevFuel_eq n n le_rfl]
    rw [hnc] at hlen hhead
    obtain ⟨l0, hl0⟩ : ∃ x, ((Nat.digits 10 n).reverse).head? = some x := by
      cases hrev : ((Nat.digits 10 n).reverse) with
      | nil =>
        rw [hrev] at hlen
        simp at hlen
      | cons x xs => exact ⟨x, rfl⟩
    rw [List.head?_map, hl0] at hhead
    simp at hhead
    have hmem : l0 ∈ Nat.digits 10 n := by
      rw [← List.mem_reverse]
      cases hrev : ((Nat.digits 10 n).reverse) with
      | nil =>
        rw [hrev] at hl0
        exact absurd hl0 (by simp)
      | cons x xs =>
        rw [hrev] at hl0
        simp only [List.head?_cons, Option.some.injEq] at hl0
        exact hl0 ▸ List.mem_cons_self x xs
    have hlast : l0 ≠ 0 := by
      have hgl : ((Nat.digits 10 n).reverse).head? =
          (Nat.digits 10 n).getLast? := by
        rw [List.getLast?_eq_head?_reverse]
      rw [hgl] at hl0
      have hne := Nat.getLast_digit_ne_zero 10 h0
      intro hz
      rw [List.getLast?_eq_getLast _ (Nat.digits_ne_nil_iff_ne_zero.mpr h0)] at hl0
      simp only [Option.some.injEq] at hl0
      exact hne (hl0 ▸ hz)
    exact hlast (digitChar_zero l0 (Nat.digits_lt_base (by norm_num) hmem) hhead)

/-! Integer literal round trip. -/

theorem digits_run_split (l r : List Char) (hl : ∀ c ∈ l, c.isDigit = true)
    (hr : Delim r) :
    (l ++ r).takeWhile Char.isDigit = l ∧ (l ++ r).dropWhile Char.isDigit = r := by
  induction l with
  | nil =>
    simp only [List.nil_append]
    cases r with
    | nil => exact ⟨rfl, rfl⟩
    | cons c t =>
      have hc := (hr c rfl).1
      rw [List.takeWhile_cons, List.dropWhile_cons]
      rw [if_neg hc, if_neg hc]
      exact ⟨rfl, rfl⟩
  | cons c t ih =>
    have hc : c.isDigit = true := hl c (by simp)
    have iht := ih (fun x hx => hl x (by simp [hx]))
    rw [List.cons_append, List.takeWhile_cons, List.dropWhile_cons, if_pos hc,
      if_pos hc]
    exact ⟨by rw [iht.1], iht.2⟩

theorem isDigit_ne_minus (c : Char) (h : c.isDigit = true) : ¬c = '-' := by
  intro hc
  subst hc
  exact absurd h (by decide)

theorem parseNum_shape (c0 : Char) (x : List Char) (h : ¬c0 = '-') :
    parseNum (c0 :: x) =
      (let ds := (c0 :: x).takeWhile Char.isDigit
       let rest := (c0 :: x).dropWhile Char.isDigit
       if ds = [] then none
       else if 1 < ds.length ∧ ds.head? = some ('0') then none
       else
         match rest with
         | c :: _ =>
             if c = '.' ∨ c = 'e' ∨ c = 'E' then none
             else some (Json.num (digitsVal ds : ℤ), rest)
         | [] => some (Json.num (digitsVal ds : ℤ), rest)) := by
  simp only [parseNum]
  rw [if_neg h]
  rfl

theorem parseNum_shape_neg (x : List Char) :
    parseNum ('-' :: x) =
      (let ds := x.takeWhile Char.isDigit
       let rest := x.dropWhile Char.isDigit
       if ds = [] then none
       else if 1 < ds.length ∧ ds.head? = some ('0') then none
       else
         match rest with
         | c :: _ =>
             if c = '.' ∨ c = 'e' ∨ c = 'E' then none
             else some (Json.num (-(digitsVal ds : ℤ)), rest)
         | [] => some (Json.num (-(digitsVal ds : ℤ)), rest)) := by
  simp only [parseNum, if_true]

theorem parseNum_digits_core (l r : List Char) (hl : ∀ c ∈ l, c.isDigit = true)
    (hne : l ≠ []) (hlz : ¬(1 < l.length ∧ l.head? = some ('0')))
    (hr : Delim r) :
    (if l = [] then none
     else if 1 < l.length ∧ l.head? = some ('0') then none
     else
       match r with
       | c :: _ =>
           if c = '.' ∨ c = 'e' ∨ c = 'E' then none
           else some (Json.num (digitsVal l : ℤ), r)
       | [] => some (Json.num (digitsVal l : ℤ), r)) =
      some (Json.num (digitsVal l : ℤ), r) := by
  rw [if_neg hne, if_neg hlz]
  cases r with
  | nil => rfl
  | cons c t =>
    have hd := hr c rfl
    show (if c = '.' ∨ c = 'e' ∨ c = 'E' then none
          else some (Json.num (digitsVal l : ℤ), c :: t)) =
        some (Json.num (digitsVal l : ℤ), c :: t)
    rw [if_neg ?_]
    rintro (h | h | h)
    · exact hd.2.1 h
    · exact hd.2.2.1 h
    · exact hd.2.2.2 h

theorem parseNum_pos (l r : List Char) (hl : ∀ c ∈ l, c.isDigit = true)
    (hne : l ≠ []) (hlz : ¬(1 < l.length ∧ l.head? = some ('0')))
    (hr : Delim r) :
    parseNum (l ++ r) = some (Json.num (digitsVal l : ℤ), r) := by
  obtain ⟨c0, t0, rfl⟩ := List.exists_cons_of_ne_nil hne
  have hc0 : ¬c0 = '-' := isDigit_ne_minus c0 (hl c0 (by simp))
  rw [List.cons_append, parseNum_shape c0 (t0 ++ r) hc0]
  have hsplit := digits_run_split (c0 :: t0) r hl hr
  rw [show c0 :: (t0 ++ r) = (c0 :: t0) ++ r from rfl]
  simp only [hsplit.1, hsplit.2]
  exact parseNum_digits_core (c0 :: t0) r hl hne hlz hr

theorem parseNum_neg (l r : List Char) (hl : ∀ c ∈ l, c.isDigit = true)
    (hne : l ≠ []) (hlz : ¬(1 < l.length ∧ l.head? = some ('0')))
    (hr : Delim r) :
    parseNum ('-' :: (l ++ r)) = some (Json.num (-(digitsVal l : ℤ)), r) := by
  rw [parseNum_shape_neg (l ++ r)]
  have hsplit := digits_run_split l r hl hr
  simp only [hsplit.1, hsplit.2]
  rw [if_neg hne, if_neg hlz]
  cases r with
  | nil => rfl
  | cons c t =>
    have hd := hr c rfl
    show (if c = '.' ∨ c = 'e' ∨ c = 'E' then none
          else some (Json.num (-(digitsVal l : ℤ)), c :: t)) =
        some (Json.num (-(digitsVal l : ℤ)), c :: t)
    rw [if_neg ?_]
    rintro (h | h | h)
    · exact hd.2.1 h
    · exact hd.2.2.1 h
    · exact hd.2.2.2 h

theorem parseNum_intChars (n : ℤ) (rest : List Char) (hrest : Delim rest) :
    parseNum (intChars n ++ rest) = some (Json.num n, rest) := by
  by_cases hn : n < 0
  · have he : intChars n = '-' :: natChars n.natAbs := by
      rw [intChars, if_pos hn]
    rw [he, List.cons_append,
      parseNum_neg (natChars n.natAbs) rest (natChars_all_digits _)
        (natChars_ne_nil _) (natChars_no_leading_zero _) hrest,
      digitsVal_natChars]
    have hv : -(n.natAbs : ℤ) = n := by omega
    rw [hv]
  · have he : intChars n = natChars n.natAbs := by
      rw [intChars, if_neg hn]
    rw [he,
      parseNum_pos (natChars n.natAbs) rest (natChars_all_digits _)
        (natChars_ne_nil _) (natChars_no_leading_zero _) hrest,
      digitsVal_natChars]
    have hv : (n.natAbs : ℤ) = n := by omega
    rw [hv]

/-! Auxiliary facts for the main round-trip induction. -/

theorem delim_nil : Delim [] := fun c h => absurd h (by simp)

theorem delim_cons (c : Char) (t : List Char) (h1 : ¬c.isDigit = true)
    (h2 : ¬c = '.') (h3 : ¬c = 'e') (h4 : ¬c = 'E') : Delim (c :: t) := by
  intro c' hc'
  simp only [List.head?_cons, Option.some.injEq] at hc'
  subst hc'
  exact ⟨h1, h2, h3, h4⟩

theorem natChars_head (m : ℕ) : ∃ c t, natChars m = c :: t ∧
    ∃ d, d < 10 ∧ c = Char.ofNat (48 + d) := by
  by_cases h0 : m = 0
  · subst h0
    exact ⟨'0', [], rfl, 0, by norm_num, by decide⟩
  · have hnc : natChars m =
        ((Nat.digits 10 m).reverse).map (fun d => Char.ofNat (48 + d)) := by
      rw [natChars, if_neg h0, natDigitsRevFuel_eq m m le_rfl]
    cases hrev : (Nat.digits 10 m).reverse with
    | nil =>
      exfalso
      have := congrArg List.length hrev
      simp only [List.length_reverse, List.length_nil] at this
      exact Nat.digits_ne_nil_iff_ne_zero.mpr h0 (List.length_eq_zero.mp this)
    | cons d ds =>
      refine ⟨Char.ofNat (48 + d), ds.map (fun d => Char.ofNat (48 + d)), ?_, d, ?_, rfl⟩
      · rw [hnc, hrev, List.map_cons]
      · have : d ∈ Nat.digits 10 m := by
          rw [← List.mem_reverse, hrev]
          simp
        exact Nat.digits_lt_base (by norm_num) this

theorem intChars_head (n : ℤ) : ∃ c t, intChars n = c :: t ∧
    (c = '-' ∨ ∃ d, d < 10 ∧ c = Char.ofNat (48 + d)) := by
  by_cases hn : n < 0
  · exact ⟨'-', natChars n.natAbs, by rw [intChars, if_pos hn], Or.inl rfl⟩
  · obtain ⟨c, t, hct, hd⟩ := natChars_head n.natAbs
    exact ⟨c, t, by rw [intChars, if_neg hn, hct], Or.inr hd⟩

theorem dumps_head (v : Json) : ∃ c t, dumps v = c :: t ∧
    (c = 'n' ∨ c = 't' ∨ c = 'f' ∨ c = '"' ∨ c = '[' ∨ c = lbrace ∨ c = '-' ∨
     ∃ d, d < 10 ∧ c = Char.ofNat (48 + d)) := by
  cases v with
  | null => exact ⟨'n', _, rfl, Or.inl rfl⟩
  | bool b =>
    cases b with
    | true => exact ⟨'t', _, rfl, Or.inr (Or.inl rfl)⟩
    | false => exact ⟨'f', _, rfl, Or.inr (Or.inr (Or.inl rfl))⟩
  | num n =>
    obtain ⟨c, t, hct, hc⟩ := intChars_head n
    refine ⟨c, t, hct, ?_⟩
    rcases hc with hc | hc
    · exact Or.inr (Or.inr (Or.inr (Or.inr (Or.inr (Or.inr (Or.inl hc))))))
    · exact Or.inr (Or.inr (Or.inr (Or.inr (Or.inr (Or.inr (Or.inr hc))))))
  | str s => exact ⟨'"', _, rfl, Or.inr (Or.inr (Or.inr (Or.inl rfl)))⟩
  | arr xs =>
    cases xs with
    | nil => exact ⟨'[', _, rfl, Or.inr (Or.inr (Or.inr (Or.inr (Or.inl rfl))))⟩
    | cons x t => exact ⟨'[', _, rfl, Or.inr (Or.inr (Or.inr (Or.inr (Or.inl rfl))))⟩
  | obj ms =>
    cases ms with
    | nil =>
      exact ⟨lbrace, _, rfl, Or.inr (Or.inr (Or.inr (Or.inr (Or.inr (Or.inl rfl)))))⟩
    | cons m t =>
      exact ⟨lbrace, _, rfl, Or.inr (Or.inr (Or.inr (Or.inr (Or.inr (Or.inl rfl)))))⟩

theorem digit_head_facts : ∀ d, d < 10 →
    isJsonWs (Char.ofNat (48 + d)) = false ∧ ¬Char.ofNat (48 + d) = ']' ∧
      ¬Char.ofNat (48 + d) = rbrace := by
  decide

theorem startChar_facts (c : Char)
    (h : c = 'n' ∨ c = 't' ∨ c = 'f' ∨ c = '"' ∨ c = '[' ∨ c = lbrace ∨ c = '-' ∨
      ∃ d, d < 10 ∧ c = Char.ofNat (48 + d)) :
    isJsonWs c = false ∧ ¬c = ']' ∧ ¬c = rbrace := by
  rcases h with rfl | rfl | rfl | rfl | rfl | rfl | rfl | ⟨d, hd, rfl⟩
  · exact ⟨by decide, by decide, by decide⟩
  · exact ⟨by decide, by decide, by decide⟩
  · exact ⟨by decide, by decide, by decide⟩
  · exact ⟨by decide, by decide, by decide⟩
  · exact ⟨by decide, by decide, by decide⟩
  · exact ⟨by decide, by decide, by decide⟩
  · exact ⟨by decide, by decide, by decide⟩
  · exact digit_head_facts d hd

theorem skipWs_not_ws (c : Char) (t : List Char) (h : isJsonWs c = false) :
    skipWs (c :: t) = c :: t := by
  rw [skipWs, List.dropWhile_cons, if_neg (by rw [h]; exact Bool.false_ne_true)]

theorem dumpsArrTail_head (ys : List Json) : ∃ c t, dumpsArrTail ys = c :: t ∧
    (c = ',' ∨ c = ']') := by
  cases ys with
  | nil => exact ⟨']', [], rfl, Or.inr rfl⟩
  | cons y t => exact ⟨',', _, rfl, Or.inl rfl⟩

theorem dumpsObjTail_head (ms : List (String × Json)) :
    ∃ c t, dumpsObjTail ms = c :: t ∧ (c = ',' ∨ c = rbrace) := by
  cases ms with
  | nil => exact ⟨rbrace, [], rfl, Or.inr rfl⟩
  | cons m t => exact ⟨',', _, rfl, Or.inl rfl⟩

theorem delim_dumpsArrTail (ys : List Json) (rest : List Char) :
    Delim (dumpsArrTail ys ++ rest) := by
  obtain ⟨c, t, hct, hc⟩ := dumpsArrTail_head ys
  rw [hct, List.cons_append]
  rcases hc with rfl | rfl
  · exact delim_cons _ _ (by decide) (by decide) (by decide) (by decide)
  · exact delim_cons _ _ (by decide) (by decide) (by decide) (by decide)

theorem delim_dumpsObjTail (ms : List (String × Json)) (rest : List Char) :
    Delim (dumpsObjTail ms ++ rest) := by
  obtain ⟨c, t, hct, hc⟩ := dumpsObjTail_head ms
  rw [hct, List.cons_append]
  rcases hc with rfl | rfl
  · exact delim_cons _ _ (by decide) (by decide) (by decide) (by decide)
  · exact delim_cons _ _ (by decide) (by decide) (by decide) (by decide)

theorem jsize_pos (v : Json) : 1 ≤ jsize v := by
  cases v with
  | null => simp [jsize]
  | bool b => simp [jsize]
  | num n => simp [jsize]
  | str s => simp [jsize]
  | arr xs => cases xs <;> simp [jsize] <;> omega
  | obj ms => cases ms <;> simp [jsize] <;> omega

theorem jsizeA_pos (xs : List Json) : 1 ≤ jsizeA xs := by
  cases xs <;> simp [jsizeA] <;> omega

theorem jsizeM_pos (m : String × Json) : 1 ≤ jsizeM m := by
  simp [jsizeM]

theorem jsizeO_pos (ms : List (String × Json)) : 1 ≤ jsizeO ms := by
  cases ms <;> simp [jsizeO] <;> omega

theorem string_mk_data (s : String) : String.mk s.data = s := rfl

/-! Parser step lemmas: each isolates one reduction of the mutual parser. -/

theorem parseVal_arr_step (f : ℕ) (y : List Char) (c0 : Char) (z : List Char)
    (hskip : skipWs y = c0 :: z) (hne : ¬c0 = ']') (v : Json) (r1 : List Char)
    (hv : parseVal f y = some (v, r1)) (vs : List Json) (r2 : List Char)
    (ht : parseArrTail f r1 = some (vs, r2)) :
    parseVal (f + 1) ('[' :: y) = some (Json.arr (v :: vs), r2) := by
  have hstep : parseVal (f + 1) ('[' :: y) =
      (match skipWs y with
       | [] => none
       | d :: r =>
         if d = ']' then some (Json.arr [], r)
         else
           match parseVal f y with
           | some (v, r1) =>
             match parseArrTail f r1 with
             | some (vs, r2) => some (Json.arr (v :: vs), r2)
             | none => none
           | none => none) := rfl
  rw [hstep, hskip]
  show (if c0 = ']' then some (Json.arr [], z)
        else
          match parseVal f y with
          | some (v, r1) =>
            match parseArrTail f r1 with
            | some (vs, r2) => some (Json.arr (v :: vs), r2)
            | none => none
          | none => none) = some (Json.arr (v :: vs), r2)
  rw [if_neg hne, hv]
  show (match parseArrTail f r1 with
        | some (vs, r2) => some (Json.arr (v :: vs), r2)
        | none => none) = some (Json.arr (v :: vs), r2)
  rw [ht]

theorem parseVal_obj_step (f : ℕ) (y : List Char) (c0 : Char) (z : List Char)
    (hskip : skipWs y = c0 :: z) (hne : ¬c0 = rbrace) (kv : String × Json)
    (r1 : List Char) (hm : parseMember f y = some (kv, r1))
    (ms : List (String × Json)) (r2 : List Char)
    (ht : parseObjTail f r1 = some (ms, r2)) :
    parseVal (f + 1) (lbrace :: y) = some (Json.obj (kv :: ms), r2) := by
  have hstep : parseVal (f + 1) (lbrace :: y) =
      (match skipWs y with
       | [] => none
       | d :: r =>
         if d = rbrace then some (Json.obj [], r)
         else
           match parseMember f y with
           | some (kv, r1) =>
             match parseObjTail f r1 with
             | some (ms, r2) => some (Json.obj (kv :: ms), r2)
             | none => none
           | none => none) := rfl
  rw [hstep, hskip]
  show (if c0 = rbrace then some (Json.obj [], z)
        else
          match parseMember f y with
          | some (kv, r1) =>
            match parseObjTail f r1 with
            | some (ms, r2) => some (Json.obj (kv :: ms), r2)
            | none => none
          | none => none) = some (Json.obj (kv :: ms), r2)
  rw [if_neg hne, hm]
  show (match parseObjTail f r1 with
        | some (ms, r2) => some (Json.obj (kv :: ms), r2)
        | none => none) = some (Json.obj (kv :: ms), r2)
  rw [ht]

theorem parseArrTail_cons_step (f : ℕ) (y : List Char) (v : Json) (r1 : List Char)
    (hv : parseVal f y = some (v, r1)) (vs : List Json) (r2 : List Char)
    (ht : parseArrTail f r1 = some (vs, r2)) :
    parseArrTail (f + 1) (',' :: y) = some (v :: vs, r2) := by
  have hstep : parseArrTail (f + 1) (',' :: y) =
      (match parseVal f y with
       | some (v, r1) =>
         match parseArrTail f r1 with
         | some (vs, r2) => some (v :: vs, r2)
         | none => none
       | none => none) := rfl
  rw [hstep, hv]
  show (match parseArrTail f r1 with
        | some (vs, r2) => some (v :: vs, r2)
        | none => none) = some (v :: vs, r2)
  rw [ht]

theorem parseObjTail_cons_step (f : ℕ) (y : List Char) (kv : String × Json)
    (r1 : List Char) (hm : parseMember f y = some (kv, r1))
    (ms : List (String × Json)) (r2 : List Char)
    (ht : parseObjTail f r1 = some (ms, r2)) :
    parseObjTail (f + 1) (',' :: y) = some (kv :: ms, r2) := by
  have hstep : parseObjTail (f + 1) (',' :: y) =
      (match parseMember f y with
       | some (kv, r1) =>
         match parseObjTail f r1 with
         | some (ms, r2) => some (kv :: ms, r2)
         | none => none
       | none => none) := rfl
  rw [hstep, hm]
  show (match parseObjTail f r1 with
        | some (ms, r2) => some (kv :: ms, r2)
        | none => none) = some (kv :: ms, r2)
  rw [ht]

theorem parseMember_step (f : ℕ) (y : List Char) (k : List Char) (z : List Char)
    (hk : parseStrChars y = some (k, ':' :: z)) (v : Json) (r3 : List Char)
    (hv : parseVal f z = some (v, r3)) :
    parseMember (f + 1) ('"' :: y) = some ((String.mk k, v), r3) := by
  have hstep : parseMember (f + 1) ('"' :: y) =
      (match parseStrChars y with
       | some (k, r) =>
         match skipWs r with
         | [] => none
         | d :: r2 =>
           if d = ':' then
             match parseVal f r2 with
             | some (v, r3) => some ((String.mk k, v), r3)
             | none => none
           else none
       | none => none) := rfl
  rw [hstep, hk]
  show (match skipWs (':' :: z) with
        | [] => none
        | d :: r2 =>
          if d = ':' then
            match parseVal f r2 with
            | some (v, r3) => some ((String.mk k, v), r3)
            | none => none
          else none) = some ((String.mk k, v), r3)
  rw [show skipWs (':' :: z) = ':' :: z from rfl]
  show (if ':' = ':' then
          match parseVal f z with
          | some (v, r3) => some ((String.mk k, v), r3)
          | none => none
        else none) = some ((String.mk k, v), r3)
  rw [if_pos rfl, hv]

/-! The main round-trip induction on fuel. -/

theorem parse_dumps : ∀ f : ℕ,
    (∀ v rest, jsize v ≤ f → Delim rest →
       parseVal f (dumps v ++ rest) = some (v, rest)) ∧
    (∀ xs rest, jsizeA xs ≤ f →
       parseArrTail f (dumpsArrTail xs ++ rest) = some (xs, rest)) ∧
    (∀ m rest, jsizeM m ≤ f → Delim rest →
       parseMember f (dumpsStr m.1 ++ (':' :: (dumps m.2 ++ rest))) = some (m, rest)) ∧
    (∀ ms rest, jsizeO ms ≤ f →
       parseObjTail f (dumpsObjTail ms ++ rest) = some (ms, rest)) := by
  intro f
  induction f with
  | zero =>
    refine ⟨?_, ?_, ?_, ?_⟩
    · intro v rest hs _
      exact absurd hs (by have := jsize_pos v; omega)
    · intro xs rest hs
      exact absurd hs (by have := jsizeA_pos xs; omega)
    · intro m rest hs _
      exact absurd hs (by have := jsizeM_pos m; omega)
    · intro ms rest hs
      exact absurd hs (by have := jsizeO_pos ms; omega)
  | succ f ih =>
    obtain ⟨ihV, ihA, ihM, ihO⟩ := ih
    refine ⟨?_, ?_, ?_, ?_⟩
    · intro v rest hs hrest
      cases v with
      | null => rfl
      | bool b => cases b <;> rfl
      | num n =>
        obtain ⟨c, t, hct, hc⟩ := intChars_head n
        have hstep : parseVal (f + 1) (intChars n ++ rest) =
            parseNum (intChars n ++ rest) := by
          rw [hct, List.cons_append]
          rcases hc with rfl | ⟨d, hd, rfl⟩
          · rfl
          · interval_cases d <;> rfl
        rw [show dumps (Json.num n) = intChars n from rfl, hstep]
        exact parseNum_intChars n rest hrest
      | str s =>
        have harr : dumps (Json.str s) ++ rest =
            '"' :: ((s.data.map escapeChar).flatten ++ ('"' :: rest)) := by
          show dumpsStr s ++ rest = _
          rw [dumpsStr, List.cons_append]
          simp [List.append_assoc]
        rw [harr]
        rw [show parseVal (f + 1)
            ('"' :: ((s.data.map escapeChar).flatten ++ ('"' :: rest))) =
            (parseStrChars ((s.data.map escapeChar).flatten ++ ('"' :: rest))).map
              (fun p => (Json.str (String.mk p.1), p.2)) from rfl]
        rw [parseStrChars_escape s.data rest]
        simp [string_mk_data]
      | arr xs =>
        cases xs with
        | nil => rfl
        | cons x xs =>
          have harr : dumps (Json.arr (x :: xs)) ++ rest =
              '[' :: (dumps x ++ (dumpsArrTail xs ++ rest)) := by
            show ('[' :: (dumps x ++ dumpsArrTail xs)) ++ rest = _
            simp [List.append_assoc]
          rw [harr]
          have hsz : jsize (Json.arr (x :: xs)) = 1 + jsize x + jsizeA xs := by
            simp [jsize]
          rw [hsz] at hs
          have hx : jsize x ≤ f := by have := jsizeA_pos xs; omega
          have hxs : jsizeA xs ≤ f := by have := jsize_pos x; omega
          obtain ⟨c0, t0, hc0, hst⟩ := dumps_head x
          have hfacts := startChar_facts c0 hst
          have hskip : skipWs (dumps x ++ (dumpsArrTail xs ++ rest)) =
              c0 :: (t0 ++ (dumpsArrTail xs ++ rest)) := by
            rw [hc0, List.cons_append]
            exact skipWs_not_ws c0 _ hfacts.1
          exact parseVal_arr_step f _ c0 _ hskip hfacts.2.1 x
            (dumpsArrTail xs ++ rest) (ihV x _ hx (delim_dumpsArrTail xs rest))
            xs rest (ihA xs rest hxs)
      | obj ms =>
        cases ms with
        | nil => rfl
        | cons m ms =>
          have harr : dumps (Json.obj (m :: ms)) ++ rest =
              lbrace :: (dumpsStr m.1 ++
                (':' :: (dumps m.2 ++ (dumpsObjTail ms ++ rest)))) := by
            show (lbrace :: (dumpsStr m.1 ++ ':' :: dumps m.2 ++ dumpsObjTail ms)) ++
                rest = _
            simp [List.append_assoc]
          rw [harr]
          have hsz : jsize (Json.obj (m :: ms)) = 1 + jsizeM m + jsizeO ms := by
            simp [jsize]
          rw [hsz] at hs
          have hm : jsizeM m ≤ f := by have := jsizeO_pos ms; omega
          have hms : jsizeO ms ≤ f := by have := jsizeM_pos m; omega
          have hskip : skipWs (dumpsStr m.1 ++
              (':' :: (dumps m.2 ++ (dumpsObjTail ms ++ rest)))) =
              '"' :: (((m.1.data.map escapeChar).flatten ++ ['"']) ++
                (':' :: (dumps m.2 ++ (dumpsObjTail ms ++ rest)))) := by
            rw [dumpsStr, List.cons_append]
            exact skipWs_not_ws _ _ (by decide)
          exact parseVal_obj_step f _ ('"') _ hskip (by decide) m
            (dumpsObjTail ms ++ rest)
            (ihM m _ hm (delim_dumpsObjTail ms rest)) ms rest (ihO ms rest hms)
    · intro xs rest hs
      cases xs with
      | nil => rfl
      | cons y ys =>
        have harr : dumpsArrTail (y :: ys) ++ rest =
            ',' :: (dumps y ++ (dumpsArrTail ys ++ rest)) := by
          show (',' :: (dumps y ++ dumpsArrTail ys)) ++ rest = _
          simp [List.append_assoc]
        rw [harr]
        have hsz : jsizeA (y :: ys) = 1 + jsize y + jsizeA ys := by
          simp [jsizeA]
        rw [hsz] at hs
        have hy : jsize y ≤ f := by have := jsizeA_pos ys; omega
        have hys : jsizeA ys ≤ f := by have := jsize_pos y; omega
        exact parseArrTail_cons_step f _ y (dumpsArrTail ys ++ rest)
          (ihV y _ hy (delim_dumpsArrTail ys rest)) ys rest (ihA ys rest hys)
    · intro m rest hs hrest
      obtain ⟨k, v⟩ := m
      have hsz : jsizeM (k, v) = 1 + jsize v := by simp [jsizeM]
      rw [hsz] at hs
      have hv : jsize v ≤ f := by omega
      have hy : dumpsStr (k, v).1 ++ (':' :: (dumps (k, v).2 ++ rest)) =
          '"' :: ((k.data.map escapeChar).flatten ++
            ('"' :: (':' :: (dumps v ++ rest)))) := by
        rw [dumpsStr, List.cons_append]
        simp [List.append_assoc]
      rw [hy]
      rw [parseMember_step f _ k.data (dumps v ++ rest)
        (parseStrChars_escape k.data (':' :: (dumps v ++ rest))) v rest
        (ihV v rest hv hrest)]
    · intro ms rest hs
      cases ms with
      | nil => rfl
      | cons m ms =>
        have harr : dumpsObjTail (m :: ms) ++ rest =
            ',' :: (dumpsStr m.1 ++
              (':' :: (dumps m.2 ++ (dumpsObjTail ms ++ rest)))) := by
          show (',' :: (dumpsStr m.1 ++ ':' :: dumps m.2 ++ dumpsObjTail ms)) ++
              rest = _
          simp [List.append_assoc]
        rw [harr]
        have hsz : jsizeO (m :: ms) = 1 + jsizeM m + jsizeO ms := by
          simp [jsizeO]
        rw [hsz] at hs
        have hm : jsizeM m ≤ f := by have := jsizeO_pos ms; omega
        have hms : jsizeO ms ≤ f := by have := jsizeM_pos m; omega
        have hstep : parseObjTail (f + 1)
            (',' :: (dumpsStr m.1 ++ (':' :: (dumps m.2 ++ (dumpsObjTail ms ++ rest))))) =
            some (m :: ms, rest) :=
          parseObjTail_cons_step f _ m (dumpsObjTail ms ++ rest)
            (ihM m _ hm (delim_dumpsObjTail ms rest)) ms rest (ihO ms rest hms)
        exact hstep

/-! Fuel bound: the length of the rendering dominates the fuel needed. -/

theorem jsize_le_dumps : ∀ f : ℕ,
    (∀ v, jsize v ≤ f → jsize v ≤ (dumps v).length) ∧
    (∀ xs, jsizeA xs ≤ f → jsizeA xs ≤ (dumpsArrTail xs).length) ∧
    (∀ m, jsizeM m ≤ f → jsizeM m ≤ (dumpsStr m.1 ++ (':' :: dumps m.2)).length) ∧
    (∀ ms, jsizeO ms ≤ f → jsizeO ms ≤ (dumpsObjTail ms).length) := by
  intro f
  induction f with
  | zero =>
    refine ⟨?_, ?_, ?_, ?_⟩
    · intro v hs
      exact absurd hs (by have := jsize_pos v; omega)
    · intro xs hs
      exact absurd hs (by have := jsizeA_pos xs; omega)
    · intro m hs
      exact absurd hs (by have := jsizeM_pos m; omega)
    · intro ms hs
      exact absurd hs (by have := jsizeO_pos ms; omega)
  | succ f ih =>
    obtain ⟨ihV, ihA, ihM, ihO⟩ := ih
    refine ⟨?_, ?_, ?_, ?_⟩
    · intro v hs
      cases v with
      | null => decide
      | bool b => cases b <;> decide
      | num n =>
        obtain ⟨c, t, hct, _⟩ := intChars_head n
        have h1 : jsize (Json.num n) = 1 := by simp [jsize]
        rw [h1, show dumps (Json.num n) = intChars n from rfl, hct]
        simp
      | str s =>
        have h1 : jsize (Json.str s) = 1 := by simp [jsize]
        rw [h1, show dumps (Json.str s) = dumpsStr s from rfl, dumpsStr]
        simp
      | arr xs =>
        cases xs with
        | nil => decide
        | cons x t =>
          have h1 : jsize (Json.arr (x :: t)) = 1 + jsize x + jsizeA t := by
            simp [jsize]
          have h2 : (dumps (Json.arr (x :: t))).length =
              1 + (dumps x).length + (dumpsArrTail t).length := by
            rw [show dumps (Json.arr (x :: t)) =
              '[' :: (dumps x ++ dumpsArrTail t) from rfl]
            simp
            omega
          rw [h1, h2]
          rw [h1] at hs
          have hx := ihV x (by have := jsizeA_pos t; omega)
          have ht := ihA t (by have := jsize_pos x; omega)
          omega
      | obj ms =>
        cases ms with
        | nil => decide
        | cons m t =>
          have h1 : jsize (Json.obj (m :: t)) = 1 + jsizeM m + jsizeO t := by
            simp [jsize]
          have h2 : (dumps (Json.obj (m :: t))).length =
              1 + (dumpsStr m.1 ++ (':' :: dumps m.2)).length +
                (dumpsObjTail t).length := by
            rw [show dumps (Json.obj (m :: t)) =
              lbrace :: (dumpsStr m.1 ++ ':' :: dumps m.2 ++ dumpsObjTail t) from rfl]
            simp
            omega
          rw [h1, h2]
          rw [h1] at hs
          have hm := ihM m (by have := jsizeO_pos t; omega)
          have ht := ihO t (by have := jsizeM_pos m; omega)
          omega
    · intro xs hs
      cases xs with
      | nil => decide
      | cons y t =>
        have h1 : jsizeA (y :: t) = 1 + jsize y + jsizeA t := by simp [jsizeA]
        have h2 : (dumpsArrTail (y :: t)).length =
            1 + (dumps y).length + (dumpsArrTail t).length := by
          rw [show dumpsArrTail (y :: t) = ',' :: (dumps y ++ dumpsArrTail t) from rfl]
          simp
          omega
        rw [h1, h2]
        rw [h1] at hs
        have hy := ihV y (by have := jsizeA_pos t; omega)
        have ht := ihA t (by have := jsize_pos y; omega)
        omega
    · intro m hs
      have h1 : jsizeM m = 1 + jsize m.2 := by simp [jsizeM]
      have h2 : (dumpsStr m.1 ++ (':' :: dumps m.2)).length =
          (dumpsStr m.1).length + 1 + (dumps m.2).length := by
        simp
        omega
      rw [h1, h2]
      rw [h1] at hs
      have hv := ihV m.2 (by omega)
      have hq : 1 ≤ (dumpsStr m.1).length := by
        rw [dumpsStr]
        simp
      omega
    · intro ms hs
      cases ms with
      | nil => decide
      | cons m t =>
        have h1 : jsizeO (m :: t) = 1 + jsizeM m + jsizeO t := by simp [jsizeO]
        have h2 : (dumpsObjTail (m :: t)).length =
            1 + (dumpsStr m.1 ++ (':' :: dumps m.2)).length +
              (dumpsObjTail t).length := by
          rw [show dumpsObjTail (m :: t) =
            ',' :: (dumpsStr m.1 ++ ':' :: dumps m.2 ++ dumpsObjTail t) from rfl]
          simp
          omega
        rw [h1, h2]
        rw [h1] at hs
        have hm := ihM m (by have := jsizeO_pos t; omega)
        have ht := ihO t (by have := jsizeM_pos m; omega)
        omega

theorem loads_dumps (m : Json) : loads (dumps m) = some m := by
  have hfuel : jsize m ≤ (dumps m).length + 1 := by
    have := (jsize_le_dumps (jsize m)).1 m le_rfl
    omega
  have hp := (parse_dumps ((dumps m).length + 1)).1 m [] hfuel delim_nil
  rw [List.append_nil] at hp
  simp only [loads]
  rw [hp]
  rfl

/-- C8: round trip of the full RPC codec.  If the encoded frame fits in
100_000_000 bytes, then decoding it with recv_message (processing-server
side) or with the scraping server's RPC-client decoder returns exactly
the original message. -/
theorem c8_roundtrip (m : Json) (h : (send_message m).length ≤ 100000000) :
    recv_message (send_message m) = Except.ok m ∧
    client_recv_message (send_message m) = Except.ok m := by
  have hlen : (send_message m).length = 4 + (dumps_bytes m).length := by
    simp [send_message, packBE4]
    omega
  have hL : (dumps_bytes m).length ≤ 99999996 := by omega
  have hpos : 1 ≤ (dumps_bytes m).length := by
    obtain ⟨c, t, hct, _⟩ := dumps_head m
    have h1 : 1 ≤ (dumps m).length := by
      rw [hct]
      simp
    have h2 := utf8Encode_length_ge (dumps m)
    show 1 ≤ (utf8Encode (dumps m)).length
    omega
  have hframe1 : recv_message_frame (send_message m) =
      Except.ok (dumps_bytes m, ([] : List ℕ)) := by
    have hf := recvFrame_encoded 1000000000 (dumps_bytes m).length (dumps_bytes m) []
      (by omega) rfl
    rw [List.append_nil, if_neg (by omega)] at hf
    exact hf
  have hframe2 : client_recv_frame (send_message m) =
      Except.ok (dumps_bytes m, ([] : List ℕ)) := by
    have hf := recvFrame_encoded 100000000 (dumps_bytes m).length (dumps_bytes m) []
      (by omega) rfl
    rw [List.append_nil, if_neg (by omega)] at hf
    exact hf
  constructor
  · simp only [recv_message]
    rw [hframe1]
    show (match utf8Decode (dumps_bytes m) with
          | none => Except.error ProtoErr.unicodeError
          | some chars =>
            match loads chars with
            | none => Except.error ProtoErr.jsonError
            | some v => Except.ok v) = Except.ok m
    rw [show dumps_bytes m = utf8Encode (dumps m) from rfl, utf8_roundtrip]
    show (match loads (dumps m) with
          | none => Except.error ProtoErr.jsonError
          | some v => Except.ok v) = Except.ok m
    rw [loads_dumps]
  · simp only [client_recv_message]
    rw [hframe2]
    show (match utf8Decode (dumps_bytes m) with
          | none => Except.error ProtoErr.unicodeError
          | some chars =>
            match loads chars with
            | none => Except.error ProtoErr.jsonError
            | some v => Except.ok v) = Except.ok m
    rw [show dumps_bytes m = utf8Encode (dumps m) from rfl, utf8_roundtrip]
    show (match loads (dumps m) with
          | none => Except.error ProtoErr.jsonError
          | some v => Except.ok v) = Except.ok m
    rw [loads_dumps]

/-- C8 witness: a concrete message with a string and a negative number
round-trips through both decoders. -/
theorem c8_roundtrip_witness :
    (send_message (Json.obj [("status", Json.str ("ok")),
        ("n", Json.num (-12))])).length ≤ 100000000 ∧
    (recv_message (send_message (Json.obj [("status", Json.str ("ok")),
        ("n", Json.num (-12))])) =
      Except.ok (Json.obj [("status", Json.str ("ok")), ("n", Json.num (-12))]) ∧
     client_recv_message (send_message (Json.obj [("status", Json.str ("ok")),
        ("n", Json.num (-12))])) =
      Except.ok (Json.obj [("status", Json.str ("ok")), ("n", Json.num (-12))])) :=
  ⟨by decide,
   c8_roundtrip (Json.obj [("status", Json.str ("ok")), ("n", Json.num (-12))])
     (by decide)⟩

end TP2
